import Mathlib

/-!
IS31FL3236 LED driver: embedding of `IS31FL3236.h` / `IS31FL3236.cpp`

The class `IS` becomes a record; every member function becomes a pure function
from the object to the new object together with the list of actions it performed
on the external collaborators (I2C transactions through `Wire`, `pinMode`,
`digitalWrite`, `delay`), in program order.

Machine integers: `uint8_t` values are natural numbers below 256, `int8_t` and
`int` values are integers; results stored into a `uint8_t` are reduced modulo 256.

The cache `lc_cache` is an array of exactly `led_count = 36` bytes, with valid
indices 0..35.  An access outside the array is undefined behaviour in C++; the
functions that index the cache therefore return an `Option`, and `none` stands for
an execution that left the array.
-/

set_option linter.dupNamespace false

namespace IS31FL3236

/-- One action on an external collaborator.  `busWrite addr reg data` is a complete
`Wire` transaction: `beginTransmission(addr)`, `write(reg)`, one `write` per element
of `data`, `endTransmission()`. -/
inductive Event where
  | busWrite (addr : Nat) (reg : Nat) (data : List Nat)
  | pinMode (pin : Int)
  | digitalWrite (pin : Int) (val : Nat)
  | delay (ms : Nat)
  deriving DecidableEq

/-- The data members of class `IS`. -/
structure IS where
  devc_addr : Nat
  psdb : Int
  lc_cache : List Nat
  deriving DecidableEq

/-- `static constexpr int led_count = 36`. -/
def led_count : Nat := 36

/-- Shutdown register. -/
def REG_SD : Nat := 0x00
/-- First PWM register (range 0x01 - 0x24). -/
def REG_PWM : Nat := 0x01
/-- Update register. -/
def REG_UP : Nat := 0x25
/-- First LED control register (range 0x26 - 0x49). -/
def REG_LC : Nat := 0x26
/-- Global control register (not used). -/
def REG_GC : Nat := 0x4a
/-- Output frequency register. -/
def REG_OF : Nat := 0x4b
/-- Reset register. -/
def REG_RS : Nat := 0x4f

/-- The default value of the constructor parameter `_psdb`, documented as
"set to -1 or leave at default to disable the use of the SDB pin". -/
def psdb_default : Int := -1

/-- `IS::IS(uint8_t _addr, int _psdb)`: stores the address and the pin; the member
initialiser `lc_cache[led_count] = {0}` zero-fills the 36 cache bytes. -/
def IS.IS (_addr : Nat) (_psdb : Int) : IS :=
  IS.mk _addr _psdb (List.replicate led_count 0)

/-- `IS::SDB_L`: `if (psdb) digitalWrite(psdb, 0);` (an `int` is true when non-zero). -/
def SDB_L (self : IS) : List Event :=
  if self.psdb ≠ 0 then [Event.digitalWrite self.psdb 0] else []

/-- `IS::SDB_H`: `if (psdb) digitalWrite(psdb, 1);`. -/
def SDB_H (self : IS) : List Event :=
  if self.psdb ≠ 0 then [Event.digitalWrite self.psdb 1] else []

/-- `IS::writeRegister(_reg, _val)`: one transaction carrying one data byte. -/
def writeRegister (self : IS) (_reg _val : Nat) : List Event :=
  [Event.busWrite self.devc_addr _reg [_val]]

/-- The loop `for (i = 0; i < _len; i++) Wire.write(*(_data + i))` of the buffer
overload of `writeRegisters`, where `_data` points at index `off` of the array `mem`:
the bytes read, or `none` when a read leaves the array. -/
def readBytes (mem : List Nat) (off : Nat) : Nat → Option (List Nat)
  | 0 => some []
  | n + 1 =>
    match mem[off]? with
    | none => none
    | some b =>
      match readBytes mem (off + 1) n with
      | none => none
      | some bs => some (b :: bs)

/-- `IS::writeRegisters(_reg_start, uint8_t *_data, _len)` with `_data = mem + off`. -/
def writeRegisters_data (self : IS) (_reg_start : Nat) (mem : List Nat) (off _len : Nat) :
    Option (List Event) :=
  match readBytes mem off _len with
  | none => none
  | some bs => some [Event.busWrite self.devc_addr _reg_start bs]

/-- `IS::writeRegisters(_reg_start, uint8_t _val, _len)`: `_len` copies of `_val`. -/
def writeRegisters_val (self : IS) (_reg_start _val _len : Nat) : List Event :=
  [Event.busWrite self.devc_addr _reg_start (List.replicate _len _val)]

/-- `memset(mem, v, n)` on an array holding at least `n` bytes. -/
def memset (mem : List Nat) (v n : Nat) : List Nat :=
  List.replicate n v ++ mem.drop n

/-- `IS::update`: `writeRegister(REG_UP, 0x00)`. -/
def update (self : IS) : IS × List Event :=
  (self, writeRegister self REG_UP 0x00)

/-- `IS::initialize(bool _state, uint8_t _cur_div, uint8_t _dc)`. -/
def initializeIS (self : IS) (_state : Bool) (_cur_div _dc : Nat) : IS × List Event :=
  if _cur_div < 1 ∨ _cur_div > 4 then (self, [])
  else
    let e_mode := if self.psdb ≠ 0 then [Event.pinMode self.psdb] else []
    let e_sdb := SDB_H self
    let lc_val := (((_cur_div - 1) <<< 1) ||| _state.toNat) % 256
    let e_lc := writeRegisters_val self REG_LC lc_val led_count
    let self1 := IS.mk self.devc_addr self.psdb (memset self.lc_cache lc_val led_count)
    let e_pwm := writeRegisters_val self1 REG_PWM _dc led_count
    (self1, e_mode ++ e_sdb ++ e_lc ++ e_pwm ++ (update self1).2)

/-- `IS::setFrequency(int _freq)`. -/
def setFrequency (self : IS) (_freq : Int) : IS × List Event :=
  if _freq = 3 then (self, writeRegister self REG_OF 0x00)
  else if _freq = 22 then (self, writeRegister self REG_OF 0x01)
  else (self, [])

/-- `IS::shutdown`. -/
def shutdown (self : IS) : IS × List Event :=
  (self, writeRegister self REG_SD 0x00)

/-- `IS::enable`. -/
def enable (self : IS) : IS × List Event :=
  (self, SDB_H self ++ writeRegister self REG_SD 0x01)

/-- `IS::hardShutdown`. -/
def hardShutdown (self : IS) : IS × List Event :=
  (self, SDB_L self)

/-- `IS::hardEnable`. -/
def hardEnable (self : IS) : IS × List Event :=
  (self, SDB_H self)

/-- The statement `lc_cache[ch] = (lc_cache[ch] & 0b11111110) | _state;`.  It is only
executed with `_state` equal to 0 or 1, so the promoted `int` operand is non-negative. -/
def storeState (cache : List Nat) (ch : Nat) (_state : Int) : Option (List Nat) :=
  match cache[ch]? with
  | none => none
  | some x => some (cache.set ch (((x &&& 0b11111110) ||| _state.toNat) % 256))

/-- The statement `lc_cache[ch] = (lc_cache[ch] & 0b11111001) | ((_cur_div - 1) << 1);`.
It is only executed with `_cur_div` in 1..4. -/
def storeCurDiv (cache : List Nat) (ch : Nat) (_cur_div : Int) : Option (List Nat) :=
  match cache[ch]? with
  | none => none
  | some x => some (cache.set ch (((x &&& 0b11111001) ||| ((_cur_div - 1).toNat <<< 1)) % 256))

/-- The two guarded cache statements shared by `configure` and by the loop body of
`multiconfigure`. -/
def updateEntry (cache : List Nat) (ch : Nat) (_state _cur_div : Int) : Option (List Nat) :=
  match (if _state ≠ -1 then storeState cache ch _state else some cache) with
  | none => none
  | some c1 => if _cur_div ≠ -1 then storeCurDiv c1 ch _cur_div else some c1

/-- The validation of `_state` and `_cur_div` shared by `configure` and `multiconfigure`:
true when the call is rejected. -/
def badConfig (_state _cur_div : Int) : Prop :=
  (_cur_div < 1 ∧ _cur_div ≠ -1) ∨ _cur_div > 4 ∨ _state < -1 ∨ _state > 1

instance (s d : Int) : Decidable (badConfig s d) := by
  unfold badConfig; infer_instance

/-- `IS::configure(uint8_t _ch, int8_t _state, int8_t _cur_div, bool _update)`. -/
def configure (self : IS) (_ch : Nat) (_state _cur_div : Int) (_update : Bool) :
    Option (IS × List Event) :=
  if _ch < 1 ∨ _ch > 36 ∨ badConfig _state _cur_div then some (self, [])
  else
    match updateEntry self.lc_cache _ch _state _cur_div with
    | none => none
    | some cache1 =>
      match cache1[_ch]? with
      | none => none
      | some v =>
        let self1 := IS.mk self.devc_addr self.psdb cache1
        some (self1, writeRegister self1 ((0x25 + _ch) % 256) v
                      ++ (if _update then (update self1).2 else []))

/-- The loop `for (int ch = chl; ch < chh + 1; ch++)` of `multiconfigure`, as a
recursion on the number `n` of iterations left, starting at channel `ch`. -/
def configLoop (cache : List Nat) (_state _cur_div : Int) (ch : Nat) : Nat → Option (List Nat)
  | 0 => some cache
  | n + 1 =>
    match updateEntry cache ch _state _cur_div with
    | none => none
    | some c => configLoop c _state _cur_div (ch + 1) n

/-- `IS::multiconfigure(_ch_first, _ch_last, _state, _cur_div, _update)`. -/
def multiconfigure (self : IS) (_ch_first _ch_last : Nat) (_state _cur_div : Int)
    (_update : Bool) : Option (IS × List Event) :=
  if _ch_first < 1 ∨ _ch_first > 36 ∨ _ch_last < 1 ∨ _ch_last > 36
      ∨ badConfig _state _cur_div then some (self, [])
  else
    let chl := min _ch_first _ch_last
    let chh := max _ch_first _ch_last
    match configLoop self.lc_cache _state _cur_div chl (chh + 1 - chl) with
    | none => none
    | some c =>
      let self1 := IS.mk self.devc_addr self.psdb c
      match writeRegisters_data self1 ((0x25 + chl) % 256) c chl (chh - chl + 1) with
      | none => none
      | some ev => some (self1, ev ++ (if _update then (update self1).2 else []))

/-- `IS::write(uint8_t _ch, uint8_t _dc, bool _update)`. -/
def write (self : IS) (_ch _dc : Nat) (_update : Bool) : IS × List Event :=
  if _ch > 36 ∨ _ch < 1 then (self, [])
  else (self, writeRegister self ((0x0 + _ch) % 256) _dc
                ++ (if _update then (update self).2 else []))

/-- `IS::multiwrite(_ch_first, _ch_last, _dc, _update)`. -/
def multiwrite (self : IS) (_ch_first _ch_last _dc : Nat) (_update : Bool) : IS × List Event :=
  if _ch_first < 1 ∨ _ch_first > 36 ∨ _ch_last < 1 ∨ _ch_last > 36 then (self, [])
  else
    let chl := min _ch_first _ch_last
    let chh := max _ch_first _ch_last
    (self, writeRegisters_val self chl _dc (chh - chl + 1)
            ++ (if _update then (update self).2 else []))

/-- `IS::reset`: `writeRegister(0x4f, 0x00)`. -/
def reset (self : IS) : IS × List Event :=
  (self, writeRegister self 0x4f 0x00)

/-- `IS::hardReset`: `SDB_L(); delay(1); SDB_H();`. -/
def hardReset (self : IS) : IS × List Event :=
  (self, SDB_L self ++ [Event.delay 1] ++ SDB_H self)

/-- The bus transactions among a list of actions, in order. -/
def busWrites (evs : List Event) : List Event :=
  evs.filter (fun e => match e with
    | Event.busWrite _ _ _ => true
    | _ => false)

/-- The pin actions (`pinMode`, `digitalWrite`) among a list of actions, in order. -/
def pinActions (evs : List Event) : List Event :=
  evs.filter (fun e => match e with
    | Event.pinMode _ => true
    | Event.digitalWrite _ _ => true
    | _ => false)

/-- The byte that the two guarded cache statements leave in an entry holding `x`:
the composition of the right-hand sides of `storeState` and `storeCurDiv`. -/
def packEntry (x : Nat) (_state _cur_div : Int) : Nat :=
  let x1 := if _state ≠ -1 then ((x &&& 0b11111110) ||| _state.toNat) % 256 else x
  if _cur_div ≠ -1 then ((x1 &&& 0b11111001) ||| ((_cur_div - 1).toNat <<< 1)) % 256 else x1

/-- A call of one public member function, with its arguments. -/
inductive Op where
  | init (_state : Bool) (_cur_div _dc : Nat)
  | update
  | setFrequency (_freq : Int)
  | shutdown
  | enable
  | hardShutdown
  | hardEnable
  | configure (_ch : Nat) (_state _cur_div : Int) (_update : Bool)
  | multiconfigure (_ch_first _ch_last : Nat) (_state _cur_div : Int) (_update : Bool)
  | write (_ch _dc : Nat) (_update : Bool)
  | multiwrite (_ch_first _ch_last _dc : Nat) (_update : Bool)
  | reset
  | hardReset

/-- Executes one public call. -/
def step (self : IS) : Op → Option (IS × List Event)
  | Op.init s d dc => some (initializeIS self s d dc)
  | Op.update => some (update self)
  | Op.setFrequency f => some (setFrequency self f)
  | Op.shutdown => some (shutdown self)
  | Op.enable => some (enable self)
  | Op.hardShutdown => some (hardShutdown self)
  | Op.hardEnable => some (hardEnable self)
  | Op.configure ch s d u => configure self ch s d u
  | Op.multiconfigure a b s d u => multiconfigure self a b s d u
  | Op.write ch dc u => some (write self ch dc u)
  | Op.multiwrite a b dc u => some (multiwrite self a b dc u)
  | Op.reset => some (reset self)
  | Op.hardReset => some (hardReset self)

/-- Executes a sequence of public calls, collecting the actions in order. -/
def run (self : IS) : List Op → Option (IS × List Event)
  | [] => some (self, [])
  | op :: ops =>
    match step self op with
    | none => none
    | some r1 =>
      match run r1.1 ops with
      | none => none
      | some r2 => some (r2.1, r1.2 ++ r2.2)

/-- The controller states reachable from construction through the public operations. -/
def Reachable (self : IS) : Prop :=
  ∃ (addr : Nat) (pin : Int) (ops : List Op) (evs : List Event),
    run (IS.IS addr pin) ops = some (self, evs)

/-- The cache has its 36 entries and each of them has the reserved bits 3-7 clear. -/
def CacheOk (cache : List Nat) : Prop :=
  cache.length = led_count ∧ ∀ x ∈ cache, x ≤ 7

/-- The default argument `_state = false` of `initialize` in `IS31FL3236.h`. -/
def default_state : Bool := false

/-- The default argument `_cur_div = 1` of `initialize` in `IS31FL3236.h`. -/
def default_cur_div : Nat := 1

/-- The default argument `_dc = 0` of `initialize` in `IS31FL3236.h`. -/
def default_dc : Nat := 0

/-- The packed configuration byte of a channel with state `s` (0 or 1) and current
divisor `d` (1..4): bit 0 is the state, bits 1-2 hold `d - 1`. -/
def lcByte (s d : Nat) : Nat := ((d - 1) <<< 1) ||| s

/-- Modelled from the spec: `IS::buffermultiwrite` is declared in `IS31FL3236.h` and has
no definition in `IS31FL3236.cpp`.  Following the spec and the header comment: endpoints
outside 1..36 are rejected without effect; otherwise the supplied duty-cycle bytes are
written in one transaction starting at the PWM register of the lower endpoint, in
ascending channel order, followed by `update()` when requested.  A byte sequence whose
length differs from the size of the range is left unspecified by the spec (`none`). -/
def buffermultiwrite (self : IS) (_ch_first _ch_last : Nat) (_dcs : List Nat)
    (_update : Bool) : Option (IS × List Event) :=
  if _ch_first < 1 ∨ _ch_first > 36 ∨ _ch_last < 1 ∨ _ch_last > 36 then some (self, [])
  else
    let chl := min _ch_first _ch_last
    let chh := max _ch_first _ch_last
    if _dcs.length = chh - chl + 1 then
      some (self, [Event.busWrite self.devc_addr (REG_PWM + (chl - 1)) _dcs]
                    ++ (if _update then (update self).2 else []))
    else none

/-- The register file of the device, as a map from register address to content.
`devWrite regs reg data` is the effect of one bus transaction: the first data byte goes to
register `reg` and each further byte to the next address (address auto increment). -/
def devWrite (regs : Nat → Nat) (reg : Nat) : List Nat → Nat → Nat
  | [] => regs
  | b :: bs => devWrite (fun r => if r = reg then b else regs r) (reg + 1) bs

/-- The effect of one action on the register file: bus writes store, pin actions and
delays leave the registers alone. -/
def devApply (regs : Nat → Nat) : Event → Nat → Nat
  | Event.busWrite _ reg data => devWrite regs reg data
  | _ => regs

/-- The register file after a sequence of actions. -/
def devRun (regs : Nat → Nat) : List Event → Nat → Nat
  | [] => regs
  | e :: es => devRun (devApply regs e) es

/-- The register file at power-on: every register is 0. -/
def devPowerOn : Nat → Nat := fun _ => 0

/-- The register addresses a bus transaction stores to: `reg`, `reg + 1`, ..., one per
data byte.  Other actions touch no register. -/
def touched : Event → List Nat
  | Event.busWrite _ reg data => List.range' reg data.length
  | _ => []

/-- The spec's reading of a range configuration: `configure(c, s, d, false)` called once
for each of the `n` channels `ch, ch+1, ...`, in ascending order. -/
def configureEach (self : IS) (_state _cur_div : Int) (ch : Nat) :
    Nat → Option (IS × List Event)
  | 0 => some (self, [])
  | n + 1 =>
    match configure self ch _state _cur_div false with
    | none => none
    | some r1 =>
      match configureEach r1.1 _state _cur_div (ch + 1) n with
      | none => none
      | some r2 => some (r2.1, r1.2 ++ r2.2)

/-- A sequence of public calls that does not contain `reset()`. -/
def NoReset (ops : List Op) : Prop := Op.reset ∉ ops

/-- Every data byte of the action that lands on a configuration register (an address in
0x26..0x49) has the reserved bits 3-7 clear. -/
def configBytesOk : Event → Prop
  | Event.busWrite _ reg data =>
    ∀ i, i < data.length → 0x26 ≤ reg + i → reg + i ≤ 0x49 → data.getD i 0 ≤ 7
  | _ => True

/-- The cache entry the controller uses for channel `c`, `lc_cache[c]`, exists and equals
the content of the configuration register `0x25 + c` of the device. -/
def CacheAgrees (self : IS) (regs : Nat → Nat) (c : Nat) : Prop :=
  self.lc_cache[c]? = some (regs (0x25 + c))

/-! Supporting lemmas -/

theorem led_count_eq : led_count = 36 := rfl

theorem badConfig_iff (s d : Int) :
    badConfig s d ↔ ¬ ((s = -1 ∨ s = 0 ∨ s = 1) ∧ (d = -1 ∨ d = 1 ∨ d = 2 ∨ d = 3 ∨ d = 4)) := by
  unfold badConfig
  omega

theorem lc_val_byte (s : Bool) (d : Nat) (h1 : 1 ≤ d) (h4 : d ≤ 4) :
    (((d - 1) <<< 1) ||| s.toNat) % 256 = ((d - 1) <<< 1) ||| s.toNat := by
  have hd : d = 1 ∨ d = 2 ∨ d = 3 ∨ d = 4 := by omega
  rcases hd with rfl | rfl | rfl | rfl <;> cases s <;> rfl

theorem memset_full (mem : List Nat) (v : Nat) (h : mem.length = led_count) :
    memset mem v led_count = List.replicate led_count v := by
  unfold memset
  rw [List.drop_of_length_le (le_of_eq h), List.append_nil]

theorem readBytes_eq (mem : List Nat) (n off : Nat) (h : off + n ≤ mem.length) :
    readBytes mem off n = some ((mem.drop off).take n) := by
  induction n generalizing off with
  | zero => simp [readBytes]
  | succ n ih =>
    have hlt : off < mem.length := by omega
    have hrec := ih (off + 1) (by omega)
    simp only [readBytes, List.getElem?_eq_getElem hlt, hrec]
    rw [List.drop_eq_getElem_cons hlt, List.take_succ_cons]

theorem readBytes_none (mem : List Nat) (n off : Nat) (h : mem.length < off + n)
    (hn : 0 < n) : readBytes mem off n = none := by
  induction n generalizing off with
  | zero => omega
  | succ n ih =>
    unfold readBytes
    by_cases hlt : off < mem.length
    · rw [List.getElem?_eq_getElem hlt]
      simp only
      rw [ih (off + 1) (by omega) (by omega)]
    · rw [List.getElem?_eq_none (by omega)]

theorem set_getElem_same (l : List Nat) (i : Nat) (h : i < l.length) : l.set i l[i] = l := by
  apply List.ext_getElem (by simp)
  intro n h1 h2
  rw [List.getElem_set]
  split
  · next heq => subst heq; rfl
  · rfl

theorem updateEntry_eq (cache : List Nat) (ch : Nat) (s d : Int) (h : ch < cache.length) :
    updateEntry cache ch s d = some (cache.set ch (packEntry cache[ch] s d)) := by
  unfold updateEntry packEntry storeState storeCurDiv
  by_cases hs : s = -1 <;> by_cases hd : d = -1 <;>
    simp [hs, hd, List.getElem?_eq_getElem h, List.getElem?_set, h, set_getElem_same]

theorem updateEntry_none (cache : List Nat) (ch : Nat) (s d : Int) (h : cache.length ≤ ch)
    (hsd : s ≠ -1 ∨ d ≠ -1) : updateEntry cache ch s d = none := by
  unfold updateEntry storeState storeCurDiv
  by_cases hs : s = -1 <;> by_cases hd : d = -1 <;>
    simp_all [List.getElem?_eq_none]

theorem packEntry_le (x : Nat) (s d : Int) (hx : x ≤ 7) (hok : ¬ badConfig s d) :
    packEntry x s d ≤ 7 := by
  rw [badConfig_iff, not_not] at hok
  obtain ⟨hs, hd⟩ := hok
  interval_cases x <;> rcases hs with rfl | rfl | rfl <;>
    rcases hd with rfl | rfl | rfl | rfl | rfl <;> decide

theorem packEntry_full (x : Nat) (s d : Int) (hx : x ≤ 7) (hs : s = 0 ∨ s = 1)
    (hd : d = 1 ∨ d = 2 ∨ d = 3 ∨ d = 4) :
    packEntry x s d = ((d - 1).toNat <<< 1) ||| s.toNat := by
  interval_cases x <;> rcases hs with rfl | rfl <;>
    rcases hd with rfl | rfl | rfl | rfl <;> decide

theorem updateEntry_skip (cache : List Nat) (ch : Nat) :
    updateEntry cache ch (-1) (-1) = some cache := by
  simp [updateEntry]

theorem updateEntry_cacheOk (cache c : List Nat) (ch : Nat) (s d : Int)
    (hc : CacheOk cache) (hok : ¬ badConfig s d) (h : updateEntry cache ch s d = some c) :
    CacheOk c := by
  by_cases hlt : ch < cache.length
  · rw [updateEntry_eq cache ch s d hlt] at h
    injection h with h
    subst h
    refine ⟨by simpa using hc.1, ?_⟩
    intro x hx
    rcases List.mem_or_eq_of_mem_set hx with hmem | heq
    · exact hc.2 x hmem
    · rw [heq]
      exact packEntry_le _ s d (hc.2 _ (List.getElem_mem hlt)) hok
  · by_cases hsd : s ≠ -1 ∨ d ≠ -1
    · rw [updateEntry_none cache ch s d (by omega) hsd] at h
      cases h
    · have hs : s = -1 := by tauto
      have hd : d = -1 := by tauto
      subst hs hd
      rw [updateEntry_skip] at h
      injection h with h
      subst h
      exact hc

theorem configLoop_cacheOk (s d : Int) (hok : ¬ badConfig s d) (n : Nat) :
    ∀ (ch : Nat) (cache c : List Nat), CacheOk cache →
      configLoop cache s d ch n = some c → CacheOk c := by
  induction n with
  | zero =>
    intro ch cache c hc h
    simp only [configLoop] at h
    injection h with h
    subst h
    exact hc
  | succ n ih =>
    intro ch cache c hc h
    unfold configLoop at h
    cases hu : updateEntry cache ch s d with
    | none => rw [hu] at h; cases h
    | some c1 =>
      rw [hu] at h
      exact ih (ch + 1) c1 c (updateEntry_cacheOk cache c1 ch s d hc hok hu) h

theorem configLoop_some (s d : Int) (n : Nat) :
    ∀ (ch : Nat) (cache : List Nat), ch + n ≤ cache.length →
      ∃ c, configLoop cache s d ch n = some c ∧ c.length = cache.length := by
  induction n with
  | zero =>
    intro ch cache _
    exact ⟨cache, rfl, rfl⟩
  | succ n ih =>
    intro ch cache h
    have hlt : ch < cache.length := by omega
    obtain ⟨c, hc, hlen⟩ := ih (ch + 1) (cache.set ch (packEntry cache[ch] s d))
      (by rw [List.length_set]; omega)
    refine ⟨c, ?_, ?_⟩
    · unfold configLoop
      rw [updateEntry_eq cache ch s d hlt]
      exact hc
    · rw [hlen, List.length_set]

theorem configure_in_array (self : IS) (ch : Nat) (s d : Int) (u : Bool)
    (h1 : 1 ≤ ch) (h36 : ch ≤ 36) (hlt : ch < self.lc_cache.length) (hok : ¬ badConfig s d) :
    configure self ch s d u
      = some (IS.mk self.devc_addr self.psdb
                (self.lc_cache.set ch (packEntry self.lc_cache[ch] s d)),
              Event.busWrite self.devc_addr (0x25 + ch) [packEntry self.lc_cache[ch] s d]
                :: (if u then [Event.busWrite self.devc_addr 0x25 [0x00]] else [])) := by
  have hcond : ¬ (ch < 1 ∨ ch > 36 ∨ badConfig s d) := by
    rintro (h | h | h) <;> first | omega | exact hok h
  unfold configure
  rw [if_neg hcond, updateEntry_eq _ ch s d hlt]
  have hmod : (0x25 + ch) % 256 = 0x25 + ch := by omega
  cases u <;> simp [List.getElem?_set, hlt, writeRegister, update,
    hmod, REG_UP]

theorem configure_leaves_array (self : IS) (ch : Nat) (s d : Int) (u : Bool)
    (h1 : 1 ≤ ch) (h36 : ch ≤ 36) (hge : self.lc_cache.length ≤ ch) (hok : ¬ badConfig s d) :
    configure self ch s d u = none := by
  have hcond : ¬ (ch < 1 ∨ ch > 36 ∨ badConfig s d) := by
    rintro (h | h | h) <;> first | omega | exact hok h
  unfold configure
  rw [if_neg hcond]
  by_cases hsd : s ≠ -1 ∨ d ≠ -1
  · rw [updateEntry_none _ ch s d hge hsd]
  · have hs : s = -1 := by tauto
    have hd : d = -1 := by tauto
    subst hs hd
    rw [updateEntry_skip]
    simp [List.getElem?_eq_none hge]

theorem updateEntry_length (cache c : List Nat) (ch : Nat) (s d : Int)
    (h : updateEntry cache ch s d = some c) : c.length = cache.length := by
  by_cases hlt : ch < cache.length
  · rw [updateEntry_eq cache ch s d hlt] at h
    injection h with h
    subst h
    simp
  · by_cases hsd : s ≠ -1 ∨ d ≠ -1
    · rw [updateEntry_none cache ch s d (by omega) hsd] at h
      cases h
    · have hs : s = -1 := by tauto
      have hd : d = -1 := by tauto
      subst hs hd
      rw [updateEntry_skip] at h
      injection h with h
      subst h
      rfl

theorem configLoop_length (s d : Int) (n : Nat) :
    ∀ (ch : Nat) (cache c : List Nat),
      configLoop cache s d ch n = some c → c.length = cache.length := by
  induction n with
  | zero =>
    intro ch cache c h
    simp only [configLoop] at h
    injection h with h
    subst h
    rfl
  | succ n ih =>
    intro ch cache c h
    unfold configLoop at h
    cases hu : updateEntry cache ch s d with
    | none => rw [hu] at h; cases h
    | some c1 =>
      rw [hu] at h
      rw [ih (ch + 1) c1 c h, updateEntry_length cache c1 ch s d hu]

theorem multiconfigure_in_array (self : IS) (a b : Nat) (s d : Int) (u : Bool)
    (ha1 : 1 ≤ a) (ha36 : a ≤ 36) (hb1 : 1 ≤ b) (hb36 : b ≤ 36)
    (hlt : max a b < self.lc_cache.length) (hok : ¬ badConfig s d) :
    ∃ c, configLoop self.lc_cache s d (min a b) (max a b + 1 - min a b) = some c
      ∧ c.length = self.lc_cache.length
      ∧ multiconfigure self a b s d u
          = some (IS.mk self.devc_addr self.psdb c,
                  Event.busWrite self.devc_addr (0x25 + min a b)
                      ((c.drop (min a b)).take (max a b - min a b + 1))
                    :: (if u then [Event.busWrite self.devc_addr 0x25 [0x00]] else [])) := by
  have hcond : ¬ (a < 1 ∨ a > 36 ∨ b < 1 ∨ b > 36 ∨ badConfig s d) := by
    rintro (h | h | h | h | h) <;> first | omega | exact hok h
  have hmm : min a b ≤ max a b := le_trans (min_le_left a b) (le_max_left a b)
  have hmin36 : min a b ≤ 36 := le_trans (min_le_left a b) ha36
  obtain ⟨c, hc, hlen⟩ := configLoop_some s d (max a b + 1 - min a b) (min a b) self.lc_cache
    (by omega)
  refine ⟨c, hc, hlen, ?_⟩
  have hread := readBytes_eq c (max a b - min a b + 1) (min a b) (by omega)
  have hmod : (0x25 + min a b) % 256 = 0x25 + min a b := by omega
  unfold multiconfigure
  rw [if_neg hcond]
  simp only [hc, writeRegisters_data, hread, hmod]
  cases u <;> simp [update, writeRegister, REG_UP]

theorem multiconfigure_leaves_array (self : IS) (a b : Nat) (s d : Int) (u : Bool)
    (ha1 : 1 ≤ a) (ha36 : a ≤ 36) (hb1 : 1 ≤ b) (hb36 : b ≤ 36)
    (hge : self.lc_cache.length ≤ max a b) (hok : ¬ badConfig s d) :
    multiconfigure self a b s d u = none := by
  have hcond : ¬ (a < 1 ∨ a > 36 ∨ b < 1 ∨ b > 36 ∨ badConfig s d) := by
    rintro (h | h | h | h | h) <;> first | omega | exact hok h
  have hmm : min a b ≤ max a b := le_trans (min_le_left a b) (le_max_left a b)
  unfold multiconfigure
  rw [if_neg hcond]
  cases hc : configLoop self.lc_cache s d (min a b) (max a b + 1 - min a b) with
  | none => simp only [hc]
  | some c =>
    have hlen := configLoop_length s d _ _ _ _ hc
    have hread := readBytes_none c (max a b - min a b + 1) (min a b) (by omega) (by omega)
    simp only [hc, writeRegisters_data, hread]

theorem multiconfigure_comm (self : IS) (a b : Nat) (s d : Int) (u : Bool) :
    multiconfigure self a b s d u = multiconfigure self b a s d u := by
  by_cases hcond : a < 1 ∨ a > 36 ∨ b < 1 ∨ b > 36 ∨ badConfig s d
  · have hcond2 : b < 1 ∨ b > 36 ∨ a < 1 ∨ a > 36 ∨ badConfig s d := by tauto
    unfold multiconfigure
    rw [if_pos hcond, if_pos hcond2]
  · have hcond2 : ¬ (b < 1 ∨ b > 36 ∨ a < 1 ∨ a > 36 ∨ badConfig s d) := by tauto
    unfold multiconfigure
    rw [if_neg hcond, if_neg hcond2, min_comm b a, max_comm b a]

theorem cacheOk_construct (addr : Nat) (pin : Int) : CacheOk (IS.IS addr pin).lc_cache := by
  refine ⟨by simp [IS.IS], ?_⟩
  intro x hx
  have h0 : x = 0 := List.eq_of_mem_replicate hx
  omega

theorem lc_val_le (s : Bool) (d : Nat) (h1 : 1 ≤ d) (h4 : d ≤ 4) :
    (((d - 1) <<< 1) ||| s.toNat) % 256 ≤ 7 := by
  have hd : d = 1 ∨ d = 2 ∨ d = 3 ∨ d = 4 := by omega
  rcases hd with rfl | rfl | rfl | rfl <;> cases s <;> decide

theorem initialize_cacheOk (self : IS) (s : Bool) (d dc : Nat) (hc : CacheOk self.lc_cache) :
    CacheOk (initializeIS self s d dc).1.lc_cache := by
  unfold initializeIS
  by_cases hd : d < 1 ∨ d > 4
  · rw [if_pos hd]
    exact hc
  · rw [if_neg hd]
    simp only
    rw [memset_full _ _ hc.1]
    refine ⟨by simp, ?_⟩
    intro x hx
    rw [List.eq_of_mem_replicate hx]
    exact lc_val_le s d (by omega) (by omega)

theorem configure_cacheOk (self : IS) (ch : Nat) (s d : Int) (u : Bool) (r : IS × List Event)
    (hc : CacheOk self.lc_cache) (h : configure self ch s d u = some r) :
    CacheOk r.1.lc_cache := by
  unfold configure at h
  by_cases hcond : ch < 1 ∨ ch > 36 ∨ badConfig s d
  · rw [if_pos hcond] at h
    injection h with h
    subst h
    exact hc
  · rw [if_neg hcond] at h
    have hok : ¬ badConfig s d := by tauto
    cases hu : updateEntry self.lc_cache ch s d with
    | none => simp [hu] at h
    | some c1 =>
      have hc1 := updateEntry_cacheOk _ c1 ch s d hc hok hu
      cases hg : c1[ch]? with
      | none => simp [hu, hg] at h
      | some v =>
        simp only [hu, hg] at h
        injection h with h
        subst h
        exact hc1

theorem multiconfigure_cacheOk (self : IS) (a b : Nat) (s d : Int) (u : Bool)
    (r : IS × List Event) (hc : CacheOk self.lc_cache)
    (h : multiconfigure self a b s d u = some r) : CacheOk r.1.lc_cache := by
  unfold multiconfigure at h
  by_cases hcond : a < 1 ∨ a > 36 ∨ b < 1 ∨ b > 36 ∨ badConfig s d
  · rw [if_pos hcond] at h
    injection h with h
    subst h
    exact hc
  · rw [if_neg hcond] at h
    have hok : ¬ badConfig s d := by tauto
    cases hl : configLoop self.lc_cache s d (min a b) (max a b + 1 - min a b) with
    | none => simp [hl] at h
    | some c =>
      have hc1 := configLoop_cacheOk s d hok _ _ _ c hc hl
      cases hw : writeRegisters_data (IS.mk self.devc_addr self.psdb c)
          ((0x25 + min a b) % 256) c (min a b) (max a b - min a b + 1) with
      | none => simp [hl, hw] at h
      | some ev =>
        simp only [hl, hw] at h
        injection h with h
        subst h
        exact hc1

theorem step_cacheOk (self : IS) (op : Op) (r : IS × List Event)
    (hc : CacheOk self.lc_cache) (h : step self op = some r) : CacheOk r.1.lc_cache := by
  cases op with
  | init s d dc =>
    simp only [step, Option.some.injEq] at h
    subst h
    exact initialize_cacheOk self s d dc hc
  | configure ch s d u => exact configure_cacheOk self ch s d u r hc h
  | multiconfigure a b s d u => exact multiconfigure_cacheOk self a b s d u r hc h
  | write ch dc u =>
    simp only [step, Option.some.injEq] at h
    subst h
    unfold write
    split <;> exact hc
  | multiwrite a b dc u =>
    simp only [step, Option.some.injEq] at h
    subst h
    unfold multiwrite
    split <;> exact hc
  | setFrequency f =>
    simp only [step, Option.some.injEq] at h
    subst h
    unfold setFrequency
    split
    · exact hc
    · split <;> exact hc
  | update => simp only [step, Option.some.injEq] at h; subst h; exact hc
  | shutdown => simp only [step, Option.some.injEq] at h; subst h; exact hc
  | enable => simp only [step, Option.some.injEq] at h; subst h; exact hc
  | hardShutdown => simp only [step, Option.some.injEq] at h; subst h; exact hc
  | hardEnable => simp only [step, Option.some.injEq] at h; subst h; exact hc
  | reset => simp only [step, Option.some.injEq] at h; subst h; exact hc
  | hardReset => simp only [step, Option.some.injEq] at h; subst h; exact hc

theorem run_cacheOk (ops : List Op) :
    ∀ (self : IS) (r : IS × List Event), CacheOk self.lc_cache →
      run self ops = some r → CacheOk r.1.lc_cache := by
  induction ops with
  | nil =>
    intro self r hc h
    simp only [run, Option.some.injEq] at h
    subst h
    exact hc
  | cons op ops ih =>
    intro self r hc h
    unfold run at h
    cases hs : step self op with
    | none => simp [hs] at h
    | some r1 =>
      have hc1 := step_cacheOk self op r1 hc hs
      cases hr : run r1.1 ops with
      | none => simp [hs, hr] at h
      | some r2 =>
        simp only [hs, hr, Option.some.injEq] at h
        subst h
        exact ih r1.1 r2 hc1 hr

theorem reachable_cacheOk (self : IS) (h : Reachable self) : CacheOk self.lc_cache := by
  obtain ⟨addr, pin, ops, evs, hrun⟩ := h
  exact run_cacheOk ops (IS.IS addr pin) (self, evs) (cacheOk_construct addr pin) hrun

theorem configure_full_in_array (self : IS) (c : Nat) (s d : Int) (hr : Reachable self)
    (h1 : 1 ≤ c) (h35 : c ≤ 35) (hs : s = 0 ∨ s = 1) (hd : d = 1 ∨ d = 2 ∨ d = 3 ∨ d = 4) :
    configure self c s d true
      = some (IS.mk self.devc_addr self.psdb
                (self.lc_cache.set c (((d - 1).toNat <<< 1) ||| s.toNat)),
              [Event.busWrite self.devc_addr (0x25 + c) [((d - 1).toNat <<< 1) ||| s.toNat],
               Event.busWrite self.devc_addr 0x25 [0x00]]) := by
  have hc := reachable_cacheOk self hr
  have hlen : self.lc_cache.length = 36 := hc.1
  have hlt : c < self.lc_cache.length := by omega
  have hok : ¬ badConfig s d := by
    rw [badConfig_iff, not_not]
    tauto
  rw [configure_in_array self c s d true h1 (by omega) hlt hok,
    packEntry_full _ s d (hc.2 _ (List.getElem_mem hlt)) hs hd]
  rfl

set_option maxRecDepth 100000 in
theorem packEntry_divisor_only_bits :
    ∀ x < 256, ∀ k < 4,
      (packEntry x (-1) (Int.ofNat k + 1) / 2) % 4 = k
      ∧ packEntry x (-1) (Int.ofNat k + 1) % 2 = x % 2
      ∧ packEntry x (-1) (Int.ofNat k + 1) / 8 = x / 8 := by
  decide

set_option maxRecDepth 100000 in
theorem packEntry_state_only_bits :
    ∀ x < 256, ∀ k < 2,
      packEntry x (Int.ofNat k) (-1) % 2 = k
      ∧ packEntry x (Int.ofNat k) (-1) / 2 = x / 2 := by
  decide

theorem initialize_accepted_state (self : IS) (s : Bool) (d dc : Nat)
    (hd1 : 1 ≤ d) (hd4 : d ≤ 4) (hlen : self.lc_cache.length = led_count) :
    (initializeIS self s d dc).1
      = IS.mk self.devc_addr self.psdb (List.replicate 36 (((d - 1) <<< 1) ||| s.toNat)) := by
  unfold initializeIS
  rw [if_neg (by omega)]
  simp only [lc_val_byte s d hd1 hd4]
  rw [memset_full _ _ hlen]
  rfl

theorem packEntry_after_initialize (s : Bool) (d : Nat) (s1 d1 : Int)
    (hd1 : 1 ≤ d) (hd4 : d ≤ 4) (hs1 : s1 = 0 ∨ s1 = 1)
    (hd' : d1 = 1 ∨ d1 = 2 ∨ d1 = 3 ∨ d1 = 4) :
    packEntry (((d - 1) <<< 1) ||| s.toNat) (-1) d1 = ((d1 - 1).toNat <<< 1) ||| s.toNat
    ∧ packEntry (((d - 1) <<< 1) ||| s.toNat) s1 (-1) = ((d - 1) <<< 1) ||| s1.toNat := by
  have hd : d = 1 ∨ d = 2 ∨ d = 3 ∨ d = 4 := by omega
  rcases hd with rfl | rfl | rfl | rfl <;> cases s <;> rcases hs1 with rfl | rfl <;>
    rcases hd' with rfl | rfl | rfl | rfl <;> decide

/-- For the channels 1..35, whose entries `lc_cache[1..35]` the
initialisation has written, a later `configure` with only the divisor keeps the state of
the initialisation, and one with only the state keeps its divisor. -/
theorem configure_after_initialize_in_array (self : IS) (s : Bool) (d dc c : Nat)
    (s1 d1 : Int) (u : Bool)
    (hd1 : 1 ≤ d) (hd4 : d ≤ 4) (hlen : self.lc_cache.length = led_count)
    (hc1 : 1 ≤ c) (hc35 : c ≤ 35) (hs1 : s1 = 0 ∨ s1 = 1)
    (hd' : d1 = 1 ∨ d1 = 2 ∨ d1 = 3 ∨ d1 = 4) :
    (configure (initializeIS self s d dc).1 c (-1) d1 u).map (fun r => r.2.head?)
        = some (some (Event.busWrite self.devc_addr (0x25 + c)
            [((d1 - 1).toNat <<< 1) ||| s.toNat]))
    ∧ (configure (initializeIS self s d dc).1 c s1 (-1) u).map (fun r => r.2.head?)
        = some (some (Event.busWrite self.devc_addr (0x25 + c)
            [((d - 1) <<< 1) ||| s1.toNat])) := by
  have hpk := packEntry_after_initialize s d s1 d1 hd1 hd4 hs1 hd'
  have hok1 : ¬ badConfig (-1) d1 := by
    rw [badConfig_iff, not_not]; tauto
  have hok2 : ¬ badConfig s1 (-1) := by
    rw [badConfig_iff, not_not]; tauto
  rw [initialize_accepted_state self s d dc hd1 hd4 hlen]
  constructor
  · rw [configure_in_array _ c (-1) d1 u hc1 (by omega) (by simp; omega) hok1]
    simp only [Option.map_some', List.head?_cons, List.getElem_replicate, hpk.1]
  · rw [configure_in_array _ c s1 (-1) u hc1 (by omega) (by simp; omega) hok2]
    simp only [Option.map_some', List.head?_cons, List.getElem_replicate, hpk.2]

/-- For the channels 1..35 and any byte in the entry, `configure`
with only a divisor `k+1` sets bits 1-2 to `k` and keeps bit 0 and bits 3-7; with only a
state `k` it sets bit 0 to `k` and keeps bits 1-7. -/
theorem configure_partial_in_array (self : IS) (c k : Nat) (u : Bool)
    (hc1 : 1 ≤ c) (hc35 : c ≤ 35) (hlen : self.lc_cache.length = led_count)
    (hbyte : ∀ x ∈ self.lc_cache, x < 256) :
    (k < 4 → ∃ r, configure self c (-1) (Int.ofNat k + 1) u = some r
        ∧ (r.1.lc_cache.getD c 0 / 2) % 4 = k
        ∧ r.1.lc_cache.getD c 0 % 2 = self.lc_cache.getD c 0 % 2
        ∧ r.1.lc_cache.getD c 0 / 8 = self.lc_cache.getD c 0 / 8)
    ∧ (k < 2 → ∃ r, configure self c (Int.ofNat k) (-1) u = some r
        ∧ r.1.lc_cache.getD c 0 % 2 = k
        ∧ r.1.lc_cache.getD c 0 / 2 = self.lc_cache.getD c 0 / 2) := by
  have hlt : c < self.lc_cache.length := by rw [hlen, led_count_eq]; omega
  have hx : self.lc_cache[c] < 256 := hbyte _ (List.getElem_mem hlt)
  have hold : self.lc_cache.getD c 0 = self.lc_cache[c] := by
    simp [List.getD_eq_getElem?_getD, List.getElem?_eq_getElem hlt]
  constructor
  · intro hk
    have hok : ¬ badConfig (-1) (Int.ofNat k + 1) := by
      rw [badConfig_iff, not_not]
      refine ⟨Or.inl rfl, ?_⟩
      have : Int.ofNat k = (k : Int) := rfl
      omega
    refine ⟨_, configure_in_array self c (-1) _ u hc1 (by omega) hlt hok, ?_⟩
    have hnew : (self.lc_cache.set c (packEntry self.lc_cache[c] (-1) (Int.ofNat k + 1))).getD c 0
        = packEntry self.lc_cache[c] (-1) (Int.ofNat k + 1) := by
      simp [List.getD_eq_getElem?_getD, List.getElem?_set, hlt]
    simp only [hnew, hold]
    exact packEntry_divisor_only_bits _ hx k hk
  · intro hk
    have hok : ¬ badConfig (Int.ofNat k) (-1) := by
      rw [badConfig_iff, not_not]
      refine ⟨?_, Or.inl rfl⟩
      have : Int.ofNat k = (k : Int) := rfl
      omega
    refine ⟨_, configure_in_array self c _ (-1) u hc1 (by omega) hlt hok, ?_⟩
    have hnew : (self.lc_cache.set c (packEntry self.lc_cache[c] (Int.ofNat k) (-1))).getD c 0
        = packEntry self.lc_cache[c] (Int.ofNat k) (-1) := by
      simp [List.getD_eq_getElem?_getD, List.getElem?_set, hlt]
    simp only [hnew, hold]
    exact packEntry_state_only_bits _ hx k hk

/-! Claims -/

/-- C1 (failing input).  On a freshly constructed controller `configure(36, 1, 1, true)`
indexes `lc_cache[36]`, one past the last entry of the 36-byte cache: the call leaves the
array, so no byte is recorded for channel 36 and no defined bus write results. -/
theorem configure_full_channel36_leaves_array :
    configure (IS.IS 0x3C psdb_default) 36 1 1 true = none := by
  decide

/-- C2.  A channel number outside 1..36, given as the channel of `configure` or `write`
or as either endpoint of `multiconfigure` or `multiwrite`, makes the call return at once:
no action at all is emitted (no bus write, no pin action) and the object, its cache
included, is unchanged, whatever the other arguments and the prior state. -/
theorem channel_out_of_range_rejected (self : IS) (ch other dc : Nat) (s d : Int) (u : Bool)
    (h : ch < 1 ∨ 36 < ch) :
    configure self ch s d u = some (self, [])
    ∧ write self ch dc u = (self, [])
    ∧ multiconfigure self ch other s d u = some (self, [])
    ∧ multiconfigure self other ch s d u = some (self, [])
    ∧ multiwrite self ch other dc u = (self, [])
    ∧ multiwrite self other ch dc u = (self, []) := by
  refine ⟨?_, ?_, ?_, ?_, ?_, ?_⟩
  · unfold configure
    rw [if_pos]
    omega
  · unfold write
    rw [if_pos]
    omega
  · unfold multiconfigure
    rw [if_pos]
    omega
  · unfold multiconfigure
    rw [if_pos]
    omega
  · unfold multiwrite
    rw [if_pos]
    omega
  · unfold multiwrite
    rw [if_pos]
    omega

theorem channel_out_of_range_rejected_witness :
    (37 < 1 ∨ 36 < 37)
    ∧ configure (IS.IS 0x3C 4) 37 1 2 true = some (IS.IS 0x3C 4, [])
    ∧ multiwrite (IS.IS 0x3C 4) 5 37 200 true = (IS.IS 0x3C 4, []) :=
  ⟨by decide,
   (channel_out_of_range_rejected (IS.IS 0x3C 4) 37 5 200 1 2 true (by decide)).1,
   (channel_out_of_range_rejected (IS.IS 0x3C 4) 37 5 200 1 2 true (by decide)).2.2.2.2.2⟩

/-- C3.  `configure` and `multiconfigure` called with a state outside {-1, 0, 1} or a
current divisor outside {-1, 1, 2, 3, 4} emit no action and leave the object (cache
included) unchanged, for every channel or endpoint pair; and `initialize` called with a
current divisor outside 1..4 emits no action (no bus write, no pin action) and leaves the
object unchanged. -/
theorem invalid_arguments_rejected (self : IS) (a b : Nat) (s d : Int) (u : Bool)
    (st : Bool) (dv dc : Nat)
    (hcfg : ¬ (s = -1 ∨ s = 0 ∨ s = 1) ∨ ¬ (d = -1 ∨ d = 1 ∨ d = 2 ∨ d = 3 ∨ d = 4))
    (hdv : ¬ (1 ≤ dv ∧ dv ≤ 4)) :
    configure self a s d u = some (self, [])
    ∧ multiconfigure self a b s d u = some (self, [])
    ∧ initializeIS self st dv dc = (self, []) := by
  have hbad : badConfig s d := by
    rw [badConfig_iff]
    tauto
  refine ⟨?_, ?_, ?_⟩
  · unfold configure
    rw [if_pos]
    exact Or.inr (Or.inr hbad)
  · unfold multiconfigure
    rw [if_pos]
    exact Or.inr (Or.inr (Or.inr (Or.inr hbad)))
  · unfold initializeIS
    rw [if_pos]
    omega

theorem invalid_arguments_rejected_witness :
    configure (IS.IS 0x3C 4) 7 2 1 true = some (IS.IS 0x3C 4, [])
    ∧ multiconfigure (IS.IS 0x3C 4) 7 9 2 1 true = some (IS.IS 0x3C 4, [])
    ∧ initializeIS (IS.IS 0x3C 4) true 5 9 = (IS.IS 0x3C 4, []) :=
  invalid_arguments_rejected (IS.IS 0x3C 4) 7 9 2 1 true true 5 9 (by decide) (by decide)

/-- C4 (failing input).  With the divisor alone (`configure(36, -1, 2, false)`) or the
state alone (`configure(36, 1, -1, false)`) the call on channel 36 reads and writes
`lc_cache[36]`, which is outside the 36-byte cache: there is no cached byte of channel 36
whose bits could be set or preserved. -/
theorem configure_partial_channel36_leaves_array :
    configure (IS.IS 0x3C psdb_default) 36 (-1) 2 false = none
    ∧ configure (IS.IS 0x3C psdb_default) 36 1 (-1) false = none := by
  decide

/-- C5 (failing input).  After `initialize(true, 3, 0)`, whose `memset` fills
`lc_cache[0..35]`, the calls `configure(36, -1, 2, false)` and `configure(36, 0, -1, false)`
index `lc_cache[36]`, an entry that the initialisation never wrote and that lies outside
the cache: the state or divisor set by the initialisation is not available for channel 36. -/
theorem configure_channel36_after_initialize_leaves_array :
    configure (initializeIS (IS.IS 0x3C psdb_default) true 3 0).1 36 (-1) 2 false = none
    ∧ configure (initializeIS (IS.IS 0x3C psdb_default) true 3 0).1 36 0 (-1) false = none := by
  decide

/-- C6.  For a divisor `d` in 1..4, any state `s`, any duty cycle `dc` and any prior
object (with its 36-byte cache): after `initialize(s, d, dc)` the cache is 36 copies of
`((d-1)<<1)|s`, and the bus transactions of the call are exactly three, in this order:
36 copies of that byte from register 0x26, 36 copies of `dc` from register 0x01, and the
byte 0 to the update register 0x25.  `initialize(false, 1, 0)` leaves the cache all zero. -/
theorem initialize_cache_and_bus (self : IS) (s : Bool) (d dc : Nat)
    (hd1 : 1 ≤ d) (hd4 : d ≤ 4) (hlen : self.lc_cache.length = led_count) :
    (initializeIS self s d dc).1.lc_cache = List.replicate 36 (((d - 1) <<< 1) ||| s.toNat)
    ∧ busWrites (initializeIS self s d dc).2
        = [Event.busWrite self.devc_addr 0x26 (List.replicate 36 (((d - 1) <<< 1) ||| s.toNat)),
           Event.busWrite self.devc_addr 0x01 (List.replicate 36 dc),
           Event.busWrite self.devc_addr 0x25 [0x00]]
    ∧ (initializeIS self false 1 0).1.lc_cache = List.replicate 36 0x00 := by
  have hbyte := lc_val_byte s d hd1 hd4
  have hzero : (((1 - 1) <<< 1) ||| false.toNat) % 256 = 0 := rfl
  refine ⟨?_, ?_, ?_⟩
  · unfold initializeIS
    rw [if_neg (by omega)]
    simp only [hbyte, led_count_eq]
    exact memset_full _ _ hlen
  · unfold initializeIS
    rw [if_neg (by omega)]
    by_cases hp : self.psdb = 0
    · simp [busWrites, SDB_H, writeRegisters_val, update, writeRegister, hp, hbyte,
        REG_LC, REG_PWM, REG_UP, led_count_eq]
    · simp [busWrites, SDB_H, writeRegisters_val, update, writeRegister, hp, hbyte,
        REG_LC, REG_PWM, REG_UP, led_count_eq]
  · unfold initializeIS
    rw [if_neg (by omega)]
    simp only [hzero, led_count_eq]
    exact memset_full _ _ hlen

theorem initialize_cache_and_bus_witness :
    (initializeIS (IS.IS 0x3C psdb_default) true 3 200).1.lc_cache
        = List.replicate 36 (((3 - 1) <<< 1) ||| true.toNat)
    ∧ busWrites (initializeIS (IS.IS 0x3C psdb_default) true 3 200).2
        = [Event.busWrite (IS.IS 0x3C psdb_default).devc_addr 0x26
             (List.replicate 36 (((3 - 1) <<< 1) ||| true.toNat)),
           Event.busWrite (IS.IS 0x3C psdb_default).devc_addr 0x01 (List.replicate 36 200),
           Event.busWrite (IS.IS 0x3C psdb_default).devc_addr 0x25 [0x00]]
    ∧ (initializeIS (IS.IS 0x3C psdb_default) false 1 0).1.lc_cache = List.replicate 36 0x00 :=
  initialize_cache_and_bus (IS.IS 0x3C psdb_default) true 3 200 (by decide) (by decide) rfl

/-- C9 (failing input).  A controller constructed with the documented "disabled" pin value
-1 (the default) still calls `digitalWrite` in `hardShutdown` and `hardEnable`: the guard
`if (psdb)` is true for every non-zero pin value, -1 included. -/
theorem hard_shutdown_enable_disabled_pin :
    hardShutdown (IS.IS 0x3C psdb_default)
        = (IS.IS 0x3C psdb_default, [Event.digitalWrite (-1) 0])
    ∧ hardEnable (IS.IS 0x3C psdb_default)
        = (IS.IS 0x3C psdb_default, [Event.digitalWrite (-1) 1]) := by
  decide

/-- C10.  `setFrequency(3)` performs exactly one action, the bus write of 0x00 to register
0x4B; `setFrequency(22)` exactly one, the bus write of 0x01 to register 0x4B; for every
other integer (5 for example) it performs no action.  The object, its cache included, is
returned unchanged in all cases. -/
theorem setFrequency_effect (self : IS) (f : Int) (h3 : f ≠ 3) (h22 : f ≠ 22) :
    setFrequency self 3 = (self, [Event.busWrite self.devc_addr 0x4B [0x00]])
    ∧ setFrequency self 22 = (self, [Event.busWrite self.devc_addr 0x4B [0x01]])
    ∧ setFrequency self f = (self, [])
    ∧ setFrequency self 5 = (self, []) := by
  refine ⟨rfl, rfl, ?_, rfl⟩
  unfold setFrequency
  rw [if_neg h3, if_neg h22]

theorem setFrequency_effect_witness :
    setFrequency (IS.IS 0x3C 4) 3 = (IS.IS 0x3C 4, [Event.busWrite 0x3C 0x4B [0x00]])
    ∧ setFrequency (IS.IS 0x3C 4) 22 = (IS.IS 0x3C 4, [Event.busWrite 0x3C 0x4B [0x01]])
    ∧ setFrequency (IS.IS 0x3C 4) (-7) = (IS.IS 0x3C 4, [])
    ∧ setFrequency (IS.IS 0x3C 4) 5 = (IS.IS 0x3C 4, []) :=
  setFrequency_effect (IS.IS 0x3C 4) (-7) (by decide) (by decide)

/-- C7.  `multiconfigure(a, b, s, d, u)` and `multiconfigure(b, a, s, d, u)` have the same
outcome, resulting object (cache included) and sequence of actions alike, for all
endpoints, arguments and prior states (with an endpoint 36 both calls leave the array in
the same way).  On a fresh controller `multiconfigure(5, 2, 1, 3, true)` and
`multiconfigure(2, 5, 1, 3, true)` both set `lc_cache[2..5]` to 5 and emit the bulk write
of 5,5,5,5 from register 0x27 followed by the update write. -/
theorem multiconfigure_endpoint_order (self : IS) (a b : Nat) (s d : Int) (u : Bool) :
    multiconfigure self a b s d u = multiconfigure self b a s d u
    ∧ multiconfigure (IS.IS 0x3C psdb_default) 5 2 1 3 true
        = some (IS.mk 0x3C (-1) ([0, 0, 5, 5, 5, 5] ++ List.replicate 30 0),
                [Event.busWrite 0x3C 0x27 [5, 5, 5, 5], Event.busWrite 0x3C 0x25 [0x00]])
    ∧ multiconfigure (IS.IS 0x3C psdb_default) 2 5 1 3 true
        = some (IS.mk 0x3C (-1) ([0, 0, 5, 5, 5, 5] ++ List.replicate 30 0),
                [Event.busWrite 0x3C 0x27 [5, 5, 5, 5], Event.busWrite 0x3C 0x25 [0x00]]) :=
  ⟨multiconfigure_comm self a b s d u, by decide, by decide⟩

/-- C8 (failing input).  On a fresh controller `multiconfigure(30, 36, 1, 3, false)` and
`multiconfigure(36, 36, 1, 3, false)` run their loop up to `lc_cache[36]` and hand the
bulk write a block that ends at `lc_cache[36]`, outside the 36-byte cache: the call leaves
the array and no defined configuration write of `hi-lo+1` cache entries results. -/
theorem multiconfigure_upto_channel36_leaves_array :
    multiconfigure (IS.IS 0x3C psdb_default) 30 36 1 3 false = none
    ∧ multiconfigure (IS.IS 0x3C psdb_default) 36 36 1 3 false = none := by
  decide

/-- C11.  For a channel `c` in 1..36, any duty cycle and any prior object: `write(c, dc, u)`
performs exactly one bus write of the single byte `dc` to register `c` (the PWM register
of channel `c`, within 0x01..0x24), followed by the update-register write exactly when `u`
is set, and returns the object, cache included, unchanged. -/
theorem write_effect (self : IS) (c dc : Nat) (u : Bool) (h1 : 1 ≤ c) (h36 : c ≤ 36) :
    write self c dc u
        = (self, Event.busWrite self.devc_addr c [dc]
                   :: (if u then [Event.busWrite self.devc_addr 0x25 [0x00]] else []))
    ∧ 0x01 ≤ c ∧ c ≤ 0x24 := by
  have hmod : (0x0 + c) % 256 = c := by omega
  refine ⟨?_, by omega, by omega⟩
  unfold write
  rw [if_neg (by omega), hmod]
  cases u <;> rfl

theorem write_effect_witness :
    write (IS.IS 0x3C 4) 36 200 true
        = (IS.IS 0x3C 4, Event.busWrite (IS.IS 0x3C 4).devc_addr 36 [200]
             :: (if true then [Event.busWrite (IS.IS 0x3C 4).devc_addr 0x25 [0x00]] else []))
    ∧ 0x01 ≤ 36 ∧ 36 ≤ 0x24 :=
  write_effect (IS.IS 0x3C 4) 36 200 true (by decide) (by decide)

/-- C12.  For endpoints `a`, `b` in 1..36, any duty cycle and any prior object:
`multiwrite(a, b, dc, u)` performs exactly one bus write, starting at register `min a b`
and carrying `max a b - min a b + 1` bytes all equal to `dc`, followed by the
update-register write exactly when `u` is set; the object, cache included, is returned
unchanged; and `multiwrite(b, a, dc, u)` gives the identical result. -/
theorem multiwrite_effect (self : IS) (a b dc : Nat) (u : Bool)
    (ha1 : 1 ≤ a) (ha36 : a ≤ 36) (hb1 : 1 ≤ b) (hb36 : b ≤ 36) :
    multiwrite self a b dc u
        = (self, Event.busWrite self.devc_addr (min a b)
                     (List.replicate (max a b - min a b + 1) dc)
                   :: (if u then [Event.busWrite self.devc_addr 0x25 [0x00]] else []))
    ∧ multiwrite self b a dc u = multiwrite self a b dc u := by
  have key : ∀ x y : Nat, 1 ≤ x → x ≤ 36 → 1 ≤ y → y ≤ 36 →
      multiwrite self x y dc u
        = (self, Event.busWrite self.devc_addr (min x y)
                     (List.replicate (max x y - min x y + 1) dc)
                   :: (if u then [Event.busWrite self.devc_addr 0x25 [0x00]] else [])) := by
    intro x y hx1 hx36 hy1 hy36
    unfold multiwrite
    rw [if_neg (by omega)]
    cases u <;> rfl
  refine ⟨key a b ha1 ha36 hb1 hb36, ?_⟩
  rw [key a b ha1 ha36 hb1 hb36, key b a hb1 hb36 ha1 ha36, min_comm b a, max_comm b a]

theorem multiwrite_effect_witness :
    multiwrite (IS.IS 0x3C 4) 9 7 200 false
        = (IS.IS 0x3C 4, Event.busWrite (IS.IS 0x3C 4).devc_addr (min 9 7)
                     (List.replicate (max 9 7 - min 9 7 + 1) 200)
                   :: (if false then [Event.busWrite (IS.IS 0x3C 4).devc_addr 0x25 [0x00]]
                       else []))
    ∧ multiwrite (IS.IS 0x3C 4) 7 9 200 false = multiwrite (IS.IS 0x3C 4) 9 7 200 false :=
  multiwrite_effect (IS.IS 0x3C 4) 9 7 200 false (by decide) (by decide) (by decide)
    (by decide)

/-- C13 (failing input).  `initialize()` with the default arguments of the header
(`_state = false`, `_cur_div = 1`, `_dc = 0`) stores and sends the byte 0x00 for all 36
channels, which is the encoding of state 0 with divisor 1; the documented default, state
OFF with max current / 4, is the byte `lcByte 0 4 = 0x06`. -/
theorem initialize_defaults_use_divisor_one :
    (initializeIS (IS.IS 0x3C psdb_default) default_state default_cur_div default_dc).1.lc_cache
        = List.replicate 36 0x00
    ∧ busWrites
        (initializeIS (IS.IS 0x3C psdb_default) default_state default_cur_div default_dc).2
        = [Event.busWrite 0x3C 0x26 (List.replicate 36 0x00),
           Event.busWrite 0x3C 0x01 (List.replicate 36 0),
           Event.busWrite 0x3C 0x25 [0x00]]
    ∧ lcByte 0 1 = 0x00 ∧ lcByte 0 4 = 0x06 := by
  decide

theorem devWrite_apply (data : List Nat) :
    ∀ (regs : Nat → Nat) (reg x : Nat),
      devWrite regs reg data x
        = if reg ≤ x ∧ x < reg + data.length then data.getD (x - reg) 0 else regs x := by
  induction data with
  | nil =>
    intro regs reg x
    have hno : ¬ (reg ≤ x ∧ x < reg + ([] : List Nat).length) := by
      simp only [List.length_nil]
      omega
    rw [if_neg hno]
    rfl
  | cons b bs ih =>
    intro regs reg x
    unfold devWrite
    rw [ih]
    by_cases hx : x = reg
    · subst hx
      have h1 : ¬ (x + 1 ≤ x ∧ x < x + 1 + bs.length) := by omega
      have h2 : x ≤ x ∧ x < x + (b :: bs).length := by
        simp only [List.length_cons]
        omega
      rw [if_neg h1, if_pos h2]
      simp
    · by_cases hin : reg + 1 ≤ x ∧ x < reg + 1 + bs.length
      · have h2 : reg ≤ x ∧ x < reg + (b :: bs).length := by
          simp only [List.length_cons]
          omega
        rw [if_pos hin, if_pos h2]
        obtain ⟨k, hk⟩ : ∃ k, x = reg + 1 + k := ⟨x - (reg + 1), by omega⟩
        subst hk
        have e1 : reg + 1 + k - (reg + 1) = k := by omega
        have e2 : reg + 1 + k - reg = k + 1 := by omega
        rw [e1, e2]
        rfl
      · have h2 : ¬ (reg ≤ x ∧ x < reg + (b :: bs).length) := by
          simp only [List.length_cons]
          omega
        rw [if_neg hin, if_neg h2, if_neg hx]

theorem devWrite_outside (data : List Nat) (regs : Nat → Nat) (reg x : Nat)
    (h : x < reg ∨ reg + data.length ≤ x) : devWrite regs reg data x = regs x := by
  rw [devWrite_apply, if_neg (by omega)]

theorem devWrite_inside (data : List Nat) (regs : Nat → Nat) (reg i : Nat)
    (h : i < data.length) : devWrite regs reg data (reg + i) = data[i] := by
  rw [devWrite_apply, if_pos (by omega)]
  have e : reg + i - reg = i := by omega
  rw [e, List.getD_eq_getElem?_getD, List.getElem?_eq_getElem h]
  rfl

theorem devRun_append (evs1 evs2 : List Event) :
    ∀ regs : Nat → Nat, devRun regs (evs1 ++ evs2) = devRun (devRun regs evs1) evs2 := by
  induction evs1 with
  | nil => intro regs; rfl
  | cons e es ih =>
    intro regs
    show devRun (devApply regs e) (es ++ evs2) = devRun (devRun (devApply regs e) es) evs2
    exact ih _

theorem readBytes_length (mem : List Nat) (n : Nat) :
    ∀ (off : Nat) (bs : List Nat), readBytes mem off n = some bs → bs.length = n := by
  induction n with
  | zero =>
    intro off bs h
    simp only [readBytes, Option.some.injEq] at h
    subst h
    rfl
  | succ n ih =>
    intro off bs h
    unfold readBytes at h
    cases hb : mem[off]? with
    | none => simp [hb] at h
    | some b =>
      cases hr : readBytes mem (off + 1) n with
      | none => simp [hb, hr] at h
      | some bs1 =>
        simp only [hb, hr, Option.some.injEq] at h
        subst h
        simp [ih (off + 1) bs1 hr]

/-- C14.  For endpoints `a`, `b` in 1..36 and a byte sequence of length
`max a b - min a b + 1`: `buffermultiwrite` performs one bus write starting at register
`min a b` that carries the bytes in the given order, followed by the update write exactly
when requested; on the device, byte `i` ends up in register `min a b + i`, the PWM register
of channel `min a b + i`; swapping the endpoints gives the identical result; the object,
cache included, is returned unchanged. -/
theorem buffermultiwrite_effect (self : IS) (a b : Nat) (bytes : List Nat) (u : Bool)
    (ha1 : 1 ≤ a) (ha36 : a ≤ 36) (hb1 : 1 ≤ b) (hb36 : b ≤ 36)
    (hlen : bytes.length = max a b - min a b + 1) :
    buffermultiwrite self a b bytes u
        = some (self, Event.busWrite self.devc_addr (min a b) bytes
                        :: (if u then [Event.busWrite self.devc_addr 0x25 [0x00]] else []))
    ∧ buffermultiwrite self b a bytes u = buffermultiwrite self a b bytes u
    ∧ ∀ (regs : Nat → Nat) (i : Nat) (hi : i < bytes.length),
        devRun regs (Event.busWrite self.devc_addr (min a b) bytes
                      :: (if u then [Event.busWrite self.devc_addr 0x25 [0x00]] else []))
            (min a b + i) = bytes[i] := by
  have key : ∀ x y : Nat, 1 ≤ x → x ≤ 36 → 1 ≤ y → y ≤ 36 →
      bytes.length = max x y - min x y + 1 →
      buffermultiwrite self x y bytes u
        = some (self, Event.busWrite self.devc_addr (min x y) bytes
                        :: (if u then [Event.busWrite self.devc_addr 0x25 [0x00]] else [])) := by
    intro x y hx1 hx36 hy1 hy36 hl
    have hmin1 : 1 ≤ min x y := le_min hx1 hy1
    have hreg : REG_PWM + (min x y - 1) = min x y := by
      unfold REG_PWM
      omega
    unfold buffermultiwrite
    rw [if_neg (by omega)]
    simp only [hl, if_true, hreg]
    cases u <;> rfl
  have hlen' : bytes.length = max b a - min b a + 1 := by
    rw [min_comm b a, max_comm b a]
    exact hlen
  refine ⟨key a b ha1 ha36 hb1 hb36 hlen, ?_, ?_⟩
  · rw [key a b ha1 ha36 hb1 hb36 hlen, key b a hb1 hb36 ha1 ha36 hlen', min_comm b a]
  · intro regs i hi
    have hmm : min a b ≤ max a b := le_trans (min_le_left a b) (le_max_left a b)
    have hmax : max a b ≤ 36 := max_le ha36 hb36
    cases u with
    | false =>
      simp only [devRun, devApply, Bool.false_eq_true, if_false]
      exact devWrite_inside bytes regs (min a b) i hi
    | true =>
      simp only [devRun, devApply, if_true]
      rw [devWrite_outside [0x00] _ 0x25 (min a b + i) (by omega)]
      exact devWrite_inside bytes regs (min a b) i hi

theorem buffermultiwrite_effect_witness :
    buffermultiwrite (IS.IS 0x3C 4) 9 7 [10, 20, 30] true
        = some (IS.IS 0x3C 4, Event.busWrite (IS.IS 0x3C 4).devc_addr (min 9 7) [10, 20, 30]
                  :: (if true then [Event.busWrite (IS.IS 0x3C 4).devc_addr 0x25 [0x00]]
                      else []))
    ∧ buffermultiwrite (IS.IS 0x3C 4) 7 9 [10, 20, 30] true
        = buffermultiwrite (IS.IS 0x3C 4) 9 7 [10, 20, 30] true
    ∧ ∀ (regs : Nat → Nat) (i : Nat) (hi : i < [10, 20, 30].length),
        devRun regs (Event.busWrite (IS.IS 0x3C 4).devc_addr (min 9 7) [10, 20, 30]
                      :: (if true then [Event.busWrite (IS.IS 0x3C 4).devc_addr 0x25 [0x00]]
                          else []))
            (min 9 7 + i) = [10, 20, 30][i] :=
  buffermultiwrite_effect (IS.IS 0x3C 4) 9 7 [10, 20, 30] true (by decide) (by decide)
    (by decide) (by decide) (by decide)

theorem updateEntry_frame (cache c1 : List Nat) (ch : Nat) (s d : Int)
    (h : updateEntry cache ch s d = some c1) (j : Nat) (hj : j ≠ ch) :
    c1[j]? = cache[j]? := by
  by_cases hlt : ch < cache.length
  · rw [updateEntry_eq cache ch s d hlt] at h
    injection h with h
    subst h
    rw [List.getElem?_set_ne (Ne.symm hj)]
  · by_cases hsd : s ≠ -1 ∨ d ≠ -1
    · rw [updateEntry_none cache ch s d (by omega) hsd] at h
      cases h
    · have hs : s = -1 := by tauto
      have hd : d = -1 := by tauto
      subst hs hd
      rw [updateEntry_skip] at h
      injection h with h
      subst h
      rfl

theorem configLoop_frame (s d : Int) (n : Nat) :
    ∀ (ch : Nat) (cache c1 : List Nat), configLoop cache s d ch n = some c1 →
      ∀ j, (j < ch ∨ ch + n ≤ j) → c1[j]? = cache[j]? := by
  induction n with
  | zero =>
    intro ch cache c1 h j _
    simp only [configLoop, Option.some.injEq] at h
    subst h
    rfl
  | succ n ih =>
    intro ch cache c1 h j hj
    unfold configLoop at h
    cases hu : updateEntry cache ch s d with
    | none => rw [hu] at h; cases h
    | some c2 =>
      rw [hu] at h
      rw [ih (ch + 1) c2 c1 h j (by omega), updateEntry_frame cache c2 ch s d hu j (by omega)]

theorem configureEach_in_array (s d : Int) (hok : ¬ badConfig s d) (n : Nat) :
    ∀ (self : IS) (ch : Nat), 1 ≤ ch → ch + n ≤ 37 → ch + n ≤ self.lc_cache.length →
      ∃ c1, configLoop self.lc_cache s d ch n = some c1
        ∧ c1.length = self.lc_cache.length
        ∧ ∃ evs, configureEach self s d ch n = some (IS.mk self.devc_addr self.psdb c1, evs)
          ∧ ∀ regs, devRun regs evs = devWrite regs (0x25 + ch) ((c1.drop ch).take n) := by
  induction n with
  | zero =>
    intro self ch _ _ _
    exact ⟨self.lc_cache, rfl, rfl, [], rfl, fun _ => rfl⟩
  | succ n ih =>
    intro self ch h1 h37 hle
    have hlt : ch < self.lc_cache.length := by omega
    obtain ⟨c1, hloop, hlen, evs, heach, hdev⟩ :=
      ih (IS.mk self.devc_addr self.psdb
            (self.lc_cache.set ch (packEntry self.lc_cache[ch] s d))) (ch + 1)
        (by omega) (by omega) (by simp only [List.length_set]; omega)
    have hlen1 : c1.length = self.lc_cache.length := by
      rw [hlen]
      simp only [List.length_set]
    have hch : ch < c1.length := by omega
    have hval : c1[ch] = packEntry self.lc_cache[ch] s d := by
      have hf := configLoop_frame s d n (ch + 1) _ c1 hloop ch (by omega)
      rw [List.getElem?_eq_getElem hch, List.getElem?_set_self hlt] at hf
      injection hf
    refine ⟨c1, ?_, hlen1, Event.busWrite self.devc_addr (0x25 + ch)
        [packEntry self.lc_cache[ch] s d] :: evs, ?_, ?_⟩
    · unfold configLoop
      rw [updateEntry_eq _ ch s d hlt]
      exact hloop
    · unfold configureEach
      rw [configure_in_array self ch s d false h1 (by omega) hlt hok]
      simp only [heach]
      rfl
    · intro regs
      rw [List.drop_eq_getElem_cons hch, List.take_succ_cons, hval]
      show devRun (devWrite regs (0x25 + ch) [packEntry self.lc_cache[ch] s d]) evs = _
      rw [hdev]
      rfl

theorem configure_length (self : IS) (ch : Nat) (s d : Int) (u : Bool) (r : IS × List Event)
    (h : configure self ch s d u = some r) : r.1.lc_cache.length = self.lc_cache.length := by
  unfold configure at h
  by_cases hcond : ch < 1 ∨ ch > 36 ∨ badConfig s d
  · rw [if_pos hcond] at h
    injection h with h
    subst h
    rfl
  · rw [if_neg hcond] at h
    cases hu : updateEntry self.lc_cache ch s d with
    | none => simp [hu] at h
    | some c1 =>
      cases hg : c1[ch]? with
      | none => simp [hu, hg] at h
      | some v =>
        simp only [hu, hg] at h
        injection h with h
        subst h
        exact updateEntry_length _ c1 ch s d hu

theorem configureEach_leaves_array (s d : Int) (hok : ¬ badConfig s d) (n : Nat) :
    ∀ (self : IS) (ch : Nat), 1 ≤ ch → ch + n ≤ 37 → self.lc_cache.length < ch + n → 0 < n →
      configureEach self s d ch n = none := by
  induction n with
  | zero =>
    intro self ch _ _ _ h0
    omega
  | succ n ih =>
    intro self ch h1 h37 hgt _
    unfold configureEach
    cases hc : configure self ch s d false with
    | none => rfl
    | some r1 =>
      have hl := configure_length self ch s d false r1 hc
      have hlt : ch < self.lc_cache.length := by
        by_contra hge
        rw [configure_leaves_array self ch s d false h1 (by omega) (by omega) hok] at hc
        cases hc
      simp only
      rw [ih r1.1 (ch + 1) (by omega) (by omega) (by omega) (by omega)]

/-- C16.  For endpoints `a`, `b` in 1..36, a state in {-1, 0, 1}, a divisor in
{-1, 1, 2, 3, 4} and any prior object: `multiconfigure(a, b, s, d, false)` and the calls
`configure(c, s, d, false)` for `c = min a b, ..., max a b` in turn have the same outcome:
the same resulting object (cache included), and the same content of every device register
after their bus writes, so that register `0x25 + c` receives the same byte either way.
On the 36-entry cache both return a result when the range lies within channels 1..35 (with
an endpoint 36 both leave the array). -/
theorem multiconfigure_refines_configure (self : IS) (a b : Nat) (s d : Int)
    (ha1 : 1 ≤ a) (ha36 : a ≤ 36) (hb1 : 1 ≤ b) (hb36 : b ≤ 36)
    (hs : s = -1 ∨ s = 0 ∨ s = 1) (hd : d = -1 ∨ d = 1 ∨ d = 2 ∨ d = 3 ∨ d = 4) :
    (multiconfigure self a b s d false).map (fun r => r.1)
        = (configureEach self s d (min a b) (max a b - min a b + 1)).map (fun r => r.1)
    ∧ (∀ regs : Nat → Nat,
        (multiconfigure self a b s d false).map (fun r => devRun regs r.2)
          = (configureEach self s d (min a b) (max a b - min a b + 1)).map
              (fun r => devRun regs r.2))
    ∧ (self.lc_cache.length = led_count → max a b ≤ 35 →
        (multiconfigure self a b s d false).isSome = true
        ∧ (configureEach self s d (min a b) (max a b - min a b + 1)).isSome = true) := by
  have hok : ¬ badConfig s d := by
    rw [badConfig_iff, not_not]
    exact ⟨hs, hd⟩
  have hmm : min a b ≤ max a b := le_trans (min_le_left a b) (le_max_left a b)
  have hmin1 : 1 ≤ min a b := le_min ha1 hb1
  have hmax36 : max a b ≤ 36 := max_le ha36 hb36
  have hn : max a b + 1 - min a b = max a b - min a b + 1 := by omega
  by_cases hlt : max a b < self.lc_cache.length
  · obtain ⟨c1, hloop, _, hmc⟩ :=
      multiconfigure_in_array self a b s d false ha1 ha36 hb1 hb36 hlt hok
    obtain ⟨c2, hloop2, _, evs, heach, hdev⟩ :=
      configureEach_in_array s d hok (max a b - min a b + 1) self (min a b) hmin1
        (by omega) (by omega)
    rw [hn, hloop2] at hloop
    injection hloop with hc
    subst hc
    rw [hmc, heach]
    refine ⟨rfl, ?_, ?_⟩
    · intro regs
      simp only [Option.map_some', Bool.false_eq_true, if_false, hdev]
      rfl
    · intro _ _
      exact ⟨rfl, rfl⟩
  · rw [multiconfigure_leaves_array self a b s d false ha1 ha36 hb1 hb36 (by omega) hok,
      configureEach_leaves_array s d hok (max a b - min a b + 1) self (min a b) hmin1
        (by omega) (by omega) (by omega)]
    refine ⟨rfl, fun _ => rfl, ?_⟩
    intro hlen h35
    have h36 : self.lc_cache.length = 36 := hlen
    omega

theorem multiconfigure_refines_configure_witness :
    (multiconfigure (IS.IS 0x3C 4) 7 2 1 (-1) false).map (fun r => r.1)
        = (configureEach (IS.IS 0x3C 4) 1 (-1) (min 7 2) (max 7 2 - min 7 2 + 1)).map
            (fun r => r.1)
    ∧ (∀ regs : Nat → Nat,
        (multiconfigure (IS.IS 0x3C 4) 7 2 1 (-1) false).map (fun r => devRun regs r.2)
          = (configureEach (IS.IS 0x3C 4) 1 (-1) (min 7 2) (max 7 2 - min 7 2 + 1)).map
              (fun r => devRun regs r.2))
    ∧ ((IS.IS 0x3C 4).lc_cache.length = led_count → max 7 2 ≤ 35 →
        (multiconfigure (IS.IS 0x3C 4) 7 2 1 (-1) false).isSome = true
        ∧ (configureEach (IS.IS 0x3C 4) 1 (-1) (min 7 2) (max 7 2 - min 7 2 + 1)).isSome
            = true) :=
  multiconfigure_refines_configure (IS.IS 0x3C 4) 7 2 1 (-1) (by decide) (by decide)
    (by decide) (by decide) (by decide) (by decide)

/-- C17 (failing input).  On an object with its 36-entry cache every validated call that
names channel 36 indexes `lc_cache[36]`, outside the valid indices 0..35: `configure` on
channel 36 and `multiconfigure` with an endpoint 36 leave the array, for every accepted
state, divisor and flag and every other endpoint. -/
theorem channel36_indexes_outside_cache (self : IS) (a : Nat) (s d : Int) (u : Bool)
    (hlen : self.lc_cache.length = led_count) (ha1 : 1 ≤ a) (ha36 : a ≤ 36)
    (hok : ¬ badConfig s d) :
    configure self 36 s d u = none
    ∧ multiconfigure self a 36 s d u = none
    ∧ multiconfigure self 36 a s d u = none := by
  have h36 : self.lc_cache.length = 36 := hlen
  have hmax1 : max a 36 = 36 := max_eq_right ha36
  have hmax2 : max 36 a = 36 := max_eq_left ha36
  refine ⟨?_, ?_, ?_⟩
  · exact configure_leaves_array self 36 s d u (by omega) (by omega) (by omega) hok
  · exact multiconfigure_leaves_array self a 36 s d u ha1 ha36 (by omega) (by omega)
      (by omega) hok
  · exact multiconfigure_leaves_array self 36 a s d u (by omega) (by omega) ha1 ha36
      (by omega) hok

theorem channel36_indexes_outside_cache_witness :
    configure (initializeIS (IS.IS 0x3C 4) true 2 0).1 36 (-1) (-1) false = none
    ∧ multiconfigure (initializeIS (IS.IS 0x3C 4) true 2 0).1 30 36 (-1) (-1) false = none
    ∧ multiconfigure (initializeIS (IS.IS 0x3C 4) true 2 0).1 36 30 (-1) (-1) false = none :=
  channel36_indexes_outside_cache (initializeIS (IS.IS 0x3C 4) true 2 0).1 30 (-1) (-1) false
    (by decide) (by decide) (by decide) (by decide)

theorem update_events (self : IS) :
    (update self).2 = [Event.busWrite self.devc_addr 0x25 [0x00]] := rfl

/-- C18.  For every validated call and every result it returns, the call's own register
write (the first action, before the optional `update()` call, which writes the update
register) touches only addresses of its block: `configure` the single address `0x25 + c`
and `multiconfigure` the addresses `0x25 + min a b` through `0x25 + max a b`, all within
0x26..0x49; `write` the single address `c` and `multiwrite` the addresses `min a b` through
`max a b`, all within 0x01..0x24.  The 8-bit start addresses and the length do not wrap. -/
theorem register_addresses_in_block (self : IS) (c a b dc : Nat) (s d : Int) (u : Bool)
    (hc1 : 1 ≤ c) (hc36 : c ≤ 36) (ha1 : 1 ≤ a) (ha36 : a ≤ 36) (hb1 : 1 ≤ b) (hb36 : b ≤ 36)
    (hok : ¬ badConfig s d) :
    (∀ r, configure self c s d u = some r →
        ∃ e, r.2 = e :: (if u then (update r.1).2 else [])
          ∧ touched e = [0x25 + c]
          ∧ ∀ x ∈ touched e, 0x26 ≤ x ∧ x ≤ 0x49)
    ∧ (∀ r, multiconfigure self a b s d u = some r →
        ∃ e, r.2 = e :: (if u then (update r.1).2 else [])
          ∧ touched e = List.range' (0x25 + min a b) (max a b - min a b + 1)
          ∧ ∀ x ∈ touched e, 0x26 ≤ x ∧ x ≤ 0x49)
    ∧ (∃ e, (write self c dc u).2 = e :: (if u then (update self).2 else [])
          ∧ touched e = [c]
          ∧ ∀ x ∈ touched e, 0x01 ≤ x ∧ x ≤ 0x24)
    ∧ (∃ e, (multiwrite self a b dc u).2 = e :: (if u then (update self).2 else [])
          ∧ touched e = List.range' (min a b) (max a b - min a b + 1)
          ∧ ∀ x ∈ touched e, 0x01 ≤ x ∧ x ≤ 0x24)
    ∧ (0x25 + c) % 256 = 0x25 + c
    ∧ (0x25 + min a b) % 256 = 0x25 + min a b
    ∧ (0x0 + c) % 256 = c
    ∧ 0x25 + min a b + (max a b - min a b + 1) - 1 = 0x25 + max a b
    ∧ max a b - min a b + 1 ≤ 36 := by
  have hmm : min a b ≤ max a b := le_trans (min_le_left a b) (le_max_left a b)
  have hmin1 : 1 ≤ min a b := le_min ha1 hb1
  have hmax36 : max a b ≤ 36 := max_le ha36 hb36
  refine ⟨?_, ?_, ?_, ?_, by omega, by omega, by omega, by omega, by omega⟩
  · intro r h
    by_cases hlt : c < self.lc_cache.length
    · rw [configure_in_array self c s d u hc1 hc36 hlt hok] at h
      injection h with h
      subst h
      refine ⟨_, rfl, rfl, ?_⟩
      intro x hx
      simp only [touched, List.length_singleton, List.range'_one, List.mem_singleton] at hx
      omega
    · rw [configure_leaves_array self c s d u hc1 hc36 (by omega) hok] at h
      cases h
  · intro r h
    by_cases hlt : max a b < self.lc_cache.length
    · obtain ⟨c1, _, hlen, hmc⟩ :=
        multiconfigure_in_array self a b s d u ha1 ha36 hb1 hb36 hlt hok
      rw [hmc] at h
      injection h with h
      subst h
      have hl : ((c1.drop (min a b)).take (max a b - min a b + 1)).length
          = max a b - min a b + 1 := by
        rw [List.length_take, List.length_drop]
        omega
      refine ⟨_, rfl, ?_, ?_⟩
      · simp only [touched, hl]
      · intro x hx
        simp only [touched, hl, List.mem_range'_1] at hx
        omega
    · rw [multiconfigure_leaves_array self a b s d u ha1 ha36 hb1 hb36 (by omega) hok] at h
      cases h
  · have hmod : (0x0 + c) % 256 = c := by omega
    refine ⟨Event.busWrite self.devc_addr c [dc], ?_, rfl, ?_⟩
    · unfold write
      rw [if_neg (by omega), hmod]
      rfl
    · intro x hx
      simp only [touched, List.length_singleton, List.range'_one, List.mem_singleton] at hx
      omega
  · refine ⟨Event.busWrite self.devc_addr (min a b)
        (List.replicate (max a b - min a b + 1) dc), ?_, ?_, ?_⟩
    · unfold multiwrite
      rw [if_neg (by omega)]
      rfl
    · simp only [touched, List.length_replicate]
    · intro x hx
      simp only [touched, List.length_replicate, List.mem_range'_1] at hx
      omega

theorem configBytesOk_of_le (a reg : Nat) (data : List Nat) (h : ∀ x ∈ data, x ≤ 7) :
    configBytesOk (Event.busWrite a reg data) := by
  intro i hi _ _
  rw [List.getD_eq_getElem?_getD, List.getElem?_eq_getElem hi]
  exact h _ (List.getElem_mem hi)

theorem configBytesOk_of_outside (a reg : Nat) (data : List Nat)
    (h : reg + data.length ≤ 0x26 ∨ 0x49 < reg) :
    configBytesOk (Event.busWrite a reg data) := by
  intro i hi h1 h2
  omega

theorem configBytesOk_update (self : IS) : ∀ e ∈ (update self).2, configBytesOk e := by
  intro e he
  rw [update_events, List.mem_singleton] at he
  subst he
  exact configBytesOk_of_outside _ _ _ (Or.inl (by decide))

theorem configBytesOk_flag (self : IS) (u : Bool) :
    ∀ e ∈ (if u then (update self).2 else []), configBytesOk e := by
  intro e he
  cases u with
  | false => simp at he
  | true => exact configBytesOk_update self e (by simpa using he)

theorem configBytesOk_SDB_H (self : IS) : ∀ e ∈ SDB_H self, configBytesOk e := by
  intro e he
  unfold SDB_H at he
  split at he
  · rw [List.mem_singleton] at he
    subst he
    trivial
  · simp at he

theorem configBytesOk_SDB_L (self : IS) : ∀ e ∈ SDB_L self, configBytesOk e := by
  intro e he
  unfold SDB_L at he
  split at he
  · rw [List.mem_singleton] at he
    subst he
    trivial
  · simp at he

theorem initialize_bytesOk (self : IS) (s : Bool) (d dc : Nat) :
    ∀ e ∈ (initializeIS self s d dc).2, configBytesOk e := by
  intro e he
  unfold initializeIS at he
  by_cases hd : d < 1 ∨ d > 4
  · rw [if_pos hd] at he
    simp at he
  · rw [if_neg hd] at he
    simp only [List.mem_append] at he
    rcases he with (((hm | hs) | hl) | hp) | hu
    · split at hm
      · rw [List.mem_singleton] at hm
        subst hm
        trivial
      · simp at hm
    · exact configBytesOk_SDB_H self e hs
    · simp only [writeRegisters_val, List.mem_singleton] at hl
      subst hl
      apply configBytesOk_of_le
      intro x hx
      rw [List.eq_of_mem_replicate hx]
      exact lc_val_le s d (by omega) (by omega)
    · simp only [writeRegisters_val, List.mem_singleton] at hp
      subst hp
      apply configBytesOk_of_outside
      left
      simp only [List.length_replicate, REG_PWM, led_count_eq]
      omega
    · exact configBytesOk_update _ e hu

theorem configure_bytesOk (self : IS) (ch : Nat) (s d : Int) (u : Bool) (r : IS × List Event)
    (hc : CacheOk self.lc_cache) (h : configure self ch s d u = some r) :
    ∀ e ∈ r.2, configBytesOk e := by
  by_cases hcond : ch < 1 ∨ ch > 36 ∨ badConfig s d
  · unfold configure at h
    rw [if_pos hcond] at h
    injection h with h
    subst h
    intro e he
    simp at he
  · have hok : ¬ badConfig s d := by tauto
    by_cases hlt : ch < self.lc_cache.length
    · rw [configure_in_array self ch s d u (by omega) (by omega) hlt hok] at h
      injection h with h
      subst h
      intro e he
      rcases List.mem_cons.mp he with he | he
      · subst he
        apply configBytesOk_of_le
        intro x hx
        rw [List.mem_singleton] at hx
        subst hx
        exact packEntry_le _ s d (hc.2 _ (List.getElem_mem hlt)) hok
      · exact configBytesOk_flag self u e he
    · rw [configure_leaves_array self ch s d u (by omega) (by omega) (by omega) hok] at h
      cases h

theorem multiconfigure_bytesOk (self : IS) (a b : Nat) (s d : Int) (u : Bool)
    (r : IS × List Event) (hc : CacheOk self.lc_cache)
    (h : multiconfigure self a b s d u = some r) : ∀ e ∈ r.2, configBytesOk e := by
  by_cases hcond : a < 1 ∨ a > 36 ∨ b < 1 ∨ b > 36 ∨ badConfig s d
  · unfold multiconfigure at h
    rw [if_pos hcond] at h
    injection h with h
    subst h
    intro e he
    simp at he
  · have hok : ¬ badConfig s d := by tauto
    by_cases hlt : max a b < self.lc_cache.length
    · obtain ⟨c1, hloop, _, hmc⟩ :=
        multiconfigure_in_array self a b s d u (by omega) (by omega) (by omega) (by omega)
          hlt hok
      have hc1 := configLoop_cacheOk s d hok _ _ _ c1 hc hloop
      rw [hmc] at h
      injection h with h
      subst h
      intro e he
      rcases List.mem_cons.mp he with he | he
      · subst he
        apply configBytesOk_of_le
        intro x hx
        exact hc1.2 x (List.mem_of_mem_drop (List.mem_of_mem_take hx))
      · exact configBytesOk_flag self u e he
    · rw [multiconfigure_leaves_array self a b s d u (by omega) (by omega) (by omega)
        (by omega) (by omega) hok] at h
      cases h

theorem write_bytesOk (self : IS) (ch dc : Nat) (u : Bool) :
    ∀ e ∈ (write self ch dc u).2, configBytesOk e := by
  intro e he
  unfold write at he
  by_cases hcond : ch > 36 ∨ ch < 1
  · rw [if_pos hcond] at he
    simp at he
  · rw [if_neg hcond] at he
    have hmod : (0x0 + ch) % 256 = ch := by omega
    simp only [writeRegister, hmod, List.singleton_append] at he
    rcases List.mem_cons.mp he with he | he
    · subst he
      apply configBytesOk_of_outside
      left
      simp only [List.length_singleton]
      omega
    · exact configBytesOk_flag self u e he

theorem multiwrite_bytesOk (self : IS) (a b dc : Nat) (u : Bool) :
    ∀ e ∈ (multiwrite self a b dc u).2, configBytesOk e := by
  intro e he
  unfold multiwrite at he
  by_cases hcond : a < 1 ∨ a > 36 ∨ b < 1 ∨ b > 36
  · rw [if_pos hcond] at he
    simp at he
  · rw [if_neg hcond] at he
    have hmm : min a b ≤ max a b := le_trans (min_le_left a b) (le_max_left a b)
    have hmax36 : max a b ≤ 36 := max_le (by omega) (by omega)
    simp only [writeRegisters_val, List.singleton_append] at he
    rcases List.mem_cons.mp he with he | he
    · subst he
      apply configBytesOk_of_outside
      left
      simp only [List.length_replicate]
      omega
    · exact configBytesOk_flag self u e he

theorem configBytesOk_single_outside (self : IS) (reg v : Nat)
    (h : reg < 0x26 ∨ 0x49 < reg) : ∀ e ∈ writeRegister self reg v, configBytesOk e := by
  intro e he
  simp only [writeRegister, List.mem_singleton] at he
  subst he
  apply configBytesOk_of_outside
  simp only [List.length_singleton]
  omega

theorem step_bytesOk (self : IS) (op : Op) (r : IS × List Event)
    (hc : CacheOk self.lc_cache) (h : step self op = some r) :
    ∀ e ∈ r.2, configBytesOk e := by
  cases op with
  | init s d dc =>
    simp only [step, Option.some.injEq] at h
    subst h
    exact initialize_bytesOk self s d dc
  | configure ch s d u => exact configure_bytesOk self ch s d u r hc h
  | multiconfigure a b s d u => exact multiconfigure_bytesOk self a b s d u r hc h
  | write ch dc u =>
    simp only [step, Option.some.injEq] at h
    subst h
    exact write_bytesOk self ch dc u
  | multiwrite a b dc u =>
    simp only [step, Option.some.injEq] at h
    subst h
    exact multiwrite_bytesOk self a b dc u
  | setFrequency f =>
    simp only [step, Option.some.injEq] at h
    subst h
    unfold setFrequency
    split
    · exact configBytesOk_single_outside self REG_OF 0x00 (Or.inr (by decide))
    · split
      · exact configBytesOk_single_outside self REG_OF 0x01 (Or.inr (by decide))
      · intro e he
        simp at he
  | update =>
    simp only [step, Option.some.injEq] at h
    subst h
    exact configBytesOk_update self
  | shutdown =>
    simp only [step, Option.some.injEq] at h
    subst h
    exact configBytesOk_single_outside self REG_SD 0x00 (Or.inl (by decide))
  | enable =>
    simp only [step, Option.some.injEq] at h
    subst h
    intro e he
    simp only [enable, List.mem_append] at he
    rcases he with he | he
    · exact configBytesOk_SDB_H self e he
    · exact configBytesOk_single_outside self REG_SD 0x01 (Or.inl (by decide)) e he
  | hardShutdown =>
    simp only [step, Option.some.injEq] at h
    subst h
    exact configBytesOk_SDB_L self
  | hardEnable =>
    simp only [step, Option.some.injEq] at h
    subst h
    exact configBytesOk_SDB_H self
  | reset =>
    simp only [step, Option.some.injEq] at h
    subst h
    exact configBytesOk_single_outside self 0x4f 0x00 (Or.inr (by decide))
  | hardReset =>
    simp only [step, Option.some.injEq] at h
    subst h
    intro e he
    simp only [hardReset, List.mem_append, List.mem_singleton] at he
    rcases he with (he | he) | he
    · exact configBytesOk_SDB_L self e he
    · subst he
      trivial
    · exact configBytesOk_SDB_H self e he

theorem run_bytesOk (ops : List Op) :
    ∀ (self : IS) (r : IS × List Event), CacheOk self.lc_cache →
      run self ops = some r → ∀ e ∈ r.2, configBytesOk e := by
  induction ops with
  | nil =>
    intro self r _ h
    simp only [run, Option.some.injEq] at h
    subst h
    intro e he
    simp at he
  | cons op ops ih =>
    intro self r hc h
    unfold run at h
    cases hs : step self op with
    | none => simp [hs] at h
    | some r1 =>
      have hc1 := step_cacheOk self op r1 hc hs
      have hb1 := step_bytesOk self op r1 hc hs
      cases hr : run r1.1 ops with
      | none => simp [hs, hr] at h
      | some r2 =>
        simp only [hs, hr, Option.some.injEq] at h
        subst h
        intro e he
        rcases List.mem_append.mp he with he | he
        · exact hb1 e he
        · exact ih r1.1 r2 hc1 hr e he

/-- For the executions that stay inside the cache array (every call of the sequence
returns a result, which holds in particular when no accepted call names channel 36): in
the state reached from a freshly constructed controller every cache entry is at most 7,
and every data byte that a bus write of the sequence stores to a configuration register
(an address in 0x26..0x49) is at most 7. -/
theorem reserved_bits_clear_in_array (addr : Nat) (pin : Int) (ops : List Op)
    (r : IS × List Event) (h : run (IS.IS addr pin) ops = some r) :
    Reachable r.1
    ∧ r.1.lc_cache.length = 36
    ∧ (∀ x ∈ r.1.lc_cache, x ≤ 7)
    ∧ ∀ (a reg : Nat) (data : List Nat), Event.busWrite a reg data ∈ r.2 →
        ∀ i, i < data.length → 0x26 ≤ reg + i → reg + i ≤ 0x49 → data.getD i 0 ≤ 7 := by
  have hc := run_cacheOk ops (IS.IS addr pin) r (cacheOk_construct addr pin) h
  refine ⟨⟨addr, pin, ops, r.2, h⟩, hc.1, hc.2, ?_⟩
  intro a reg data hmem
  exact run_bytesOk ops (IS.IS addr pin) r (cacheOk_construct addr pin) h _ hmem

/-- C19 (failing input).  On a freshly constructed controller `configure(36, 1, 1, false)`
is accepted and reads `lc_cache[36]`, outside the 36-byte cache, so the call leaves the
array.  The byte it sends to register `0x25 + 36 = 0x49` is `(M & 0b11111000) | 1`, where
`M` is the byte behind the array: with that byte made explicit as a 37th entry holding
0xFF, the same `configure` sends 0xF9 to register 0x49 and stores 0xF9, a value above 7
with reserved bits set. -/
theorem configure_channel36_sends_reserved_bits :
    configure (IS.IS 0x3C psdb_default) 36 1 1 false = none
    ∧ configure (IS.mk 0x3C psdb_default (List.replicate 36 0 ++ [0xFF])) 36 1 1 false
        = some (IS.mk 0x3C psdb_default (List.replicate 36 0 ++ [0xF9]),
                [Event.busWrite 0x3C 0x49 [0xF9]])
    ∧ ¬ (0xF9 ≤ 7) := by
  decide

theorem register_addresses_in_block_witness :
    (∀ r, configure (IS.IS 0x3C 4) 35 1 3 true = some r →
        ∃ e, r.2 = e :: (if true then (update r.1).2 else [])
          ∧ touched e = [0x25 + 35]
          ∧ ∀ x ∈ touched e, 0x26 ≤ x ∧ x ≤ 0x49)
    ∧ (∀ r, multiconfigure (IS.IS 0x3C 4) 35 1 1 3 true = some r →
        ∃ e, r.2 = e :: (if true then (update r.1).2 else [])
          ∧ touched e = List.range' (0x25 + min 35 1) (max 35 1 - min 35 1 + 1)
          ∧ ∀ x ∈ touched e, 0x26 ≤ x ∧ x ≤ 0x49)
    ∧ (∃ e, (write (IS.IS 0x3C 4) 35 200 true).2
              = e :: (if true then (update (IS.IS 0x3C 4)).2 else [])
          ∧ touched e = [35]
          ∧ ∀ x ∈ touched e, 0x01 ≤ x ∧ x ≤ 0x24)
    ∧ (∃ e, (multiwrite (IS.IS 0x3C 4) 35 1 200 true).2
              = e :: (if true then (update (IS.IS 0x3C 4)).2 else [])
          ∧ touched e = List.range' (min 35 1) (max 35 1 - min 35 1 + 1)
          ∧ ∀ x ∈ touched e, 0x01 ≤ x ∧ x ≤ 0x24)
    ∧ (0x25 + 35) % 256 = 0x25 + 35
    ∧ (0x25 + min 35 1) % 256 = 0x25 + min 35 1
    ∧ (0x0 + 35) % 256 = 35
    ∧ 0x25 + min 35 1 + (max 35 1 - min 35 1 + 1) - 1 = 0x25 + max 35 1
    ∧ max 35 1 - min 35 1 + 1 ≤ 36 :=
  register_addresses_in_block (IS.IS 0x3C 4) 35 35 1 200 1 3 true (by decide) (by decide)
    (by decide) (by decide) (by decide) (by decide) (by decide)

theorem devApply_untouched (regs : Nat → Nat) (e : Event) (x : Nat) (h : x ∉ touched e) :
    devApply regs e x = regs x := by
  cases e with
  | busWrite a reg data =>
    simp only [touched, List.mem_range'_1, not_and, not_lt] at h
    simp only [devApply]
    apply devWrite_outside
    by_cases hr : reg ≤ x
    · exact Or.inr (h hr)
    · exact Or.inl (by omega)
  | pinMode p => rfl
  | digitalWrite p v => rfl
  | delay ms => rfl

theorem devRun_untouched (evs : List Event) (x : Nat) :
    ∀ regs : Nat → Nat, (∀ e ∈ evs, x ∉ touched e) → devRun regs evs x = regs x := by
  induction evs with
  | nil => intro regs _; rfl
  | cons e es ih =>
    intro regs h
    show devRun (devApply regs e) es x = regs x
    rw [ih (devApply regs e) (fun e1 he1 => h e1 (List.mem_cons_of_mem _ he1)),
      devApply_untouched regs e x (h e (List.mem_cons_self _ _))]

theorem devRun_last_write (pre post : List Event) (a reg : Nat) (data : List Nat) (i : Nat)
    (hi : i < data.length) (hpost : ∀ e ∈ post, reg + i ∉ touched e) (regs : Nat → Nat) :
    devRun regs (pre ++ Event.busWrite a reg data :: post) (reg + i) = data[i] := by
  rw [devRun_append]
  show devRun (devWrite (devRun regs pre) reg data) post (reg + i) = data[i]
  rw [devRun_untouched post (reg + i) _ hpost, devWrite_inside data _ reg i hi]

theorem flag_untouched (self : IS) (u : Bool) (x : Nat) (hx : x ≠ 0x25) :
    ∀ e ∈ (if u then (update self).2 else []), x ∉ touched e := by
  intro e he
  cases u with
  | false => simp at he
  | true =>
    simp only [if_true, update_events, List.mem_singleton] at he
    subst he
    simp only [touched, List.length_singleton, List.range'_one, List.mem_singleton]
    exact hx

theorem sdb_H_untouched (self : IS) (x : Nat) : ∀ e ∈ SDB_H self, x ∉ touched e := by
  intro e he
  unfold SDB_H at he
  split at he
  · rw [List.mem_singleton] at he
    subst he
    simp [touched]
  · simp at he

theorem sdb_L_untouched (self : IS) (x : Nat) : ∀ e ∈ SDB_L self, x ∉ touched e := by
  intro e he
  unfold SDB_L at he
  split at he
  · rw [List.mem_singleton] at he
    subst he
    simp [touched]
  · simp at he

theorem single_untouched (self : IS) (reg v x : Nat) (hx : x ≠ reg) :
    ∀ e ∈ writeRegister self reg v, x ∉ touched e := by
  intro e he
  simp only [writeRegister, List.mem_singleton] at he
  subst he
  simp only [touched, List.length_singleton, List.range'_one, List.mem_singleton]
  exact hx

theorem write_untouched (self : IS) (ch dc : Nat) (u : Bool) (x : Nat) (hx : 0x26 ≤ x) :
    ∀ e ∈ (write self ch dc u).2, x ∉ touched e := by
  intro e he
  unfold write at he
  by_cases hcond : ch > 36 ∨ ch < 1
  · rw [if_pos hcond] at he
    simp at he
  · rw [if_neg hcond] at he
    have hmod : (0x0 + ch) % 256 = ch := by omega
    rw [hmod] at he
    rcases List.mem_append.mp he with he | he
    · exact single_untouched self ch dc x (by omega) e he
    · exact flag_untouched self u x (by omega) e he

theorem multiwrite_untouched (self : IS) (a b dc : Nat) (u : Bool) (x : Nat)
    (hx : 0x26 ≤ x) : ∀ e ∈ (multiwrite self a b dc u).2, x ∉ touched e := by
  intro e he
  unfold multiwrite at he
  by_cases hcond : a < 1 ∨ a > 36 ∨ b < 1 ∨ b > 36
  · rw [if_pos hcond] at he
    simp at he
  · rw [if_neg hcond] at he
    have hmm : min a b ≤ max a b := le_trans (min_le_left a b) (le_max_left a b)
    have hmax36 : max a b ≤ 36 := max_le (by omega) (by omega)
    rcases List.mem_append.mp he with he | he
    · simp only [writeRegisters_val, List.mem_singleton] at he
      subst he
      simp only [touched, List.length_replicate, List.mem_range'_1, not_and, not_lt]
      intro _
      omega
    · exact flag_untouched self u x (by omega) e he

theorem initialize_accepted_events (self : IS) (s : Bool) (d dc : Nat)
    (hd1 : 1 ≤ d) (hd4 : d ≤ 4) :
    (initializeIS self s d dc).2
      = ((if self.psdb ≠ 0 then [Event.pinMode self.psdb] else []) ++ SDB_H self)
        ++ Event.busWrite self.devc_addr 0x26 (List.replicate 36 (((d - 1) <<< 1) ||| s.toNat))
          :: [Event.busWrite self.devc_addr 0x01 (List.replicate 36 dc),
              Event.busWrite self.devc_addr 0x25 [0x00]] := by
  unfold initializeIS
  rw [if_neg (by omega)]
  simp only [lc_val_byte s d hd1 hd4, writeRegisters_val, update_events, REG_LC, REG_PWM,
    led_count_eq, List.append_assoc, List.singleton_append]
  rfl

theorem agree_of_untouched (self : IS) (regs : Nat → Nat) (r : IS × List Event) (c : Nat)
    (hcache : r.1.lc_cache[c]? = self.lc_cache[c]?)
    (hun : ∀ e ∈ r.2, (0x25 + c) ∉ touched e)
    (hag : CacheAgrees self regs c) : CacheAgrees r.1 (devRun regs r.2) c := by
  unfold CacheAgrees at *
  rw [hcache, devRun_untouched r.2 (0x25 + c) regs hun]
  exact hag

theorem initialize_agree (self : IS) (regs : Nat → Nat) (s : Bool) (d dc : Nat)
    (hlen : self.lc_cache.length = led_count) (c : Nat) (hc1 : 1 ≤ c) (hc35 : c ≤ 35)
    (hag : CacheAgrees self regs c) :
    CacheAgrees (initializeIS self s d dc).1 (devRun regs (initializeIS self s d dc).2) c := by
  by_cases hd : d < 1 ∨ d > 4
  · have hrej : initializeIS self s d dc = (self, []) := by
      unfold initializeIS
      rw [if_pos hd]
    rw [hrej]
    exact hag
  · have hd1 : 1 ≤ d := by omega
    have hd4 : d ≤ 4 := by omega
    unfold CacheAgrees
    rw [initialize_accepted_state self s d dc hd1 hd4 hlen,
      initialize_accepted_events self s d dc hd1 hd4]
    have haddr : 0x25 + c = 0x26 + (c - 1) := by omega
    have hi : c - 1 < (List.replicate 36 (((d - 1) <<< 1) ||| s.toNat)).length := by
      rw [List.length_replicate]
      omega
    rw [haddr, devRun_last_write _ _ self.devc_addr 0x26 _ (c - 1) hi]
    · simp only [List.getElem_replicate]
      rw [List.getElem?_eq_getElem (by rw [List.length_replicate]; omega),
        List.getElem_replicate]
    · intro e he
      simp only [List.mem_cons, List.mem_singleton, List.not_mem_nil, or_false] at he
      rcases he with he | he
      · subst he
        simp only [touched, List.length_replicate, List.mem_range'_1, not_and, not_lt]
        intro _
        omega
      · subst he
        simp only [touched, List.length_singleton, List.range'_one, List.mem_singleton]
        omega

theorem configure_agree (self : IS) (regs : Nat → Nat) (ch : Nat) (s d : Int) (u : Bool)
    (r : IS × List Event) (h : configure self ch s d u = some r) (c : Nat) (hc1 : 1 ≤ c)
    (hag : CacheAgrees self regs c) : CacheAgrees r.1 (devRun regs r.2) c := by
  by_cases hcond : ch < 1 ∨ ch > 36 ∨ badConfig s d
  · unfold configure at h
    rw [if_pos hcond] at h
    injection h with h
    subst h
    exact hag
  · have hok : ¬ badConfig s d := by tauto
    by_cases hlt : ch < self.lc_cache.length
    · rw [configure_in_array self ch s d u (by omega) (by omega) hlt hok] at h
      injection h with h
      subst h
      by_cases hc : c = ch
      · subst hc
        unfold CacheAgrees
        have h0 := devRun_last_write [] (if u then [Event.busWrite self.devc_addr 0x25 [0x00]]
          else []) self.devc_addr (0x25 + c) [packEntry self.lc_cache[c] s d] 0 (by simp)
          (by
            intro e he
            exact flag_untouched self u (0x25 + c + 0) (by omega) e he) regs
        simp only [List.nil_append, Nat.add_zero, List.getElem_cons_zero] at h0
        rw [h0, List.getElem?_set_self hlt]
      · apply agree_of_untouched self regs _ c _ _ hag
        · exact List.getElem?_set_ne (Ne.symm hc)
        · intro e he
          rcases List.mem_cons.mp he with he | he
          · subst he
            simp only [touched, List.length_singleton, List.range'_one, List.mem_singleton]
            omega
          · exact flag_untouched self u (0x25 + c) (by omega) e he
    · rw [configure_leaves_array self ch s d u (by omega) (by omega) (by omega) hok] at h
      cases h

theorem multiconfigure_agree (self : IS) (regs : Nat → Nat) (a b : Nat) (s d : Int)
    (u : Bool) (r : IS × List Event) (h : multiconfigure self a b s d u = some r) (c : Nat)
    (hc1 : 1 ≤ c) (hag : CacheAgrees self regs c) : CacheAgrees r.1 (devRun regs r.2) c := by
  by_cases hcond : a < 1 ∨ a > 36 ∨ b < 1 ∨ b > 36 ∨ badConfig s d
  · unfold multiconfigure at h
    rw [if_pos hcond] at h
    injection h with h
    subst h
    exact hag
  · have hok : ¬ badConfig s d := by tauto
    have hmm : min a b ≤ max a b := le_trans (min_le_left a b) (le_max_left a b)
    by_cases hlt : max a b < self.lc_cache.length
    · obtain ⟨c1, hloop, hlen, hmc⟩ :=
        multiconfigure_in_array self a b s d u (by omega) (by omega) (by omega) (by omega)
          hlt hok
      have hframe := configLoop_frame s d _ _ _ c1 hloop
      rw [hmc] at h
      injection h with h
      subst h
      by_cases hin : min a b ≤ c ∧ c ≤ max a b
      · unfold CacheAgrees
        have hi : c - min a b < ((c1.drop (min a b)).take (max a b - min a b + 1)).length := by
          rw [List.length_take, List.length_drop]
          omega
        have haddr : 0x25 + c = 0x25 + min a b + (c - min a b) := by omega
        have h0 := devRun_last_write []
          (if u then [Event.busWrite self.devc_addr 0x25 [0x00]] else []) self.devc_addr
          (0x25 + min a b) ((c1.drop (min a b)).take (max a b - min a b + 1)) (c - min a b) hi
          (by
            intro e he
            exact flag_untouched self u _ (by omega) e he) regs
        simp only [List.nil_append] at h0
        rw [haddr, h0, List.getElem_take, List.getElem_drop]
        have hidx : min a b + (c - min a b) = c := by omega
        simp only [hidx]
        exact List.getElem?_eq_getElem (by omega)
      · apply agree_of_untouched self regs _ c _ _ hag
        · exact hframe c (by omega)
        · intro e he
          rcases List.mem_cons.mp he with he | he
          · subst he
            have hl : ((c1.drop (min a b)).take (max a b - min a b + 1)).length
                = max a b - min a b + 1 := by
              rw [List.length_take, List.length_drop]
              omega
            simp only [touched, hl, List.mem_range'_1, not_and, not_lt]
            intro _
            omega
          · exact flag_untouched self u (0x25 + c) (by omega) e he
    · rw [multiconfigure_leaves_array self a b s d u (by omega) (by omega) (by omega)
        (by omega) (by omega) hok] at h
      cases h

theorem step_agree (self : IS) (regs : Nat → Nat) (op : Op) (r : IS × List Event)
    (hlen : self.lc_cache.length = led_count) (hnr : op ≠ Op.reset)
    (h : step self op = some r) (c : Nat) (hc1 : 1 ≤ c) (hc35 : c ≤ 35)
    (hag : CacheAgrees self regs c) : CacheAgrees r.1 (devRun regs r.2) c := by
  cases op with
  | init s d dc =>
    simp only [step, Option.some.injEq] at h
    subst h
    exact initialize_agree self regs s d dc hlen c hc1 hc35 hag
  | configure ch s d u => exact configure_agree self regs ch s d u r h c hc1 hag
  | multiconfigure a b s d u => exact multiconfigure_agree self regs a b s d u r h c hc1 hag
  | write ch dc u =>
    simp only [step, Option.some.injEq] at h
    subst h
    refine agree_of_untouched self regs _ c ?_ (write_untouched self ch dc u _ (by omega)) hag
    unfold write
    split <;> rfl
  | multiwrite a b dc u =>
    simp only [step, Option.some.injEq] at h
    subst h
    refine agree_of_untouched self regs _ c ?_
      (multiwrite_untouched self a b dc u _ (by omega)) hag
    unfold multiwrite
    split <;> rfl
  | setFrequency f =>
    simp only [step, Option.some.injEq] at h
    subst h
    unfold setFrequency
    split
    · exact agree_of_untouched self regs _ c rfl
        (single_untouched self REG_OF 0x00 _ (by unfold REG_OF; omega)) hag
    · split
      · exact agree_of_untouched self regs _ c rfl
          (single_untouched self REG_OF 0x01 _ (by unfold REG_OF; omega)) hag
      · exact hag
  | update =>
    simp only [step, Option.some.injEq] at h
    subst h
    exact agree_of_untouched self regs _ c rfl
      (single_untouched self REG_UP 0x00 _ (by unfold REG_UP; omega)) hag
  | shutdown =>
    simp only [step, Option.some.injEq] at h
    subst h
    exact agree_of_untouched self regs _ c rfl
      (single_untouched self REG_SD 0x00 _ (by unfold REG_SD; omega)) hag
  | enable =>
    simp only [step, Option.some.injEq] at h
    subst h
    refine agree_of_untouched self regs _ c rfl ?_ hag
    intro e he
    simp only [enable, List.mem_append] at he
    rcases he with he | he
    · exact sdb_H_untouched self _ e he
    · exact single_untouched self REG_SD 0x01 _ (by unfold REG_SD; omega) e he
  | hardShutdown =>
    simp only [step, Option.some.injEq] at h
    subst h
    exact agree_of_untouched self regs _ c rfl (sdb_L_untouched self _) hag
  | hardEnable =>
    simp only [step, Option.some.injEq] at h
    subst h
    exact agree_of_untouched self regs _ c rfl (sdb_H_untouched self _) hag
  | reset => exact absurd rfl hnr
  | hardReset =>
    simp only [step, Option.some.injEq] at h
    subst h
    refine agree_of_untouched self regs _ c rfl ?_ hag
    intro e he
    simp only [hardReset, List.mem_append, List.mem_singleton] at he
    rcases he with (he | he) | he
    · exact sdb_L_untouched self _ e he
    · subst he
      simp [touched]
    · exact sdb_H_untouched self _ e he

theorem run_agree (ops : List Op) :
    ∀ (self : IS) (regs : Nat → Nat) (r : IS × List Event), CacheOk self.lc_cache →
      NoReset ops → run self ops = some r → ∀ c, 1 ≤ c → c ≤ 35 →
      CacheAgrees self regs c → CacheAgrees r.1 (devRun regs r.2) c := by
  induction ops with
  | nil =>
    intro self regs r _ _ h c _ _ hag
    simp only [run, Option.some.injEq] at h
    subst h
    exact hag
  | cons op ops ih =>
    intro self regs r hc hnr h c hc1 hc35 hag
    have hop : op ≠ Op.reset := by
      intro heq
      exact hnr (by rw [heq]; exact List.mem_cons_self _ _)
    have hnr2 : NoReset ops := fun hmem => hnr (List.mem_cons_of_mem _ hmem)
    unfold run at h
    cases hs : step self op with
    | none => simp [hs] at h
    | some r1 =>
      have hc1' := step_cacheOk self op r1 hc hs
      have hag1 := step_agree self regs op r1 hc.1 hop hs c hc1 hc35 hag
      cases hr : run r1.1 ops with
      | none => simp [hs, hr] at h
      | some r2 =>
        simp only [hs, hr, Option.some.injEq] at h
        subst h
        rw [devRun_append]
        exact ih r1.1 (devRun regs r1.2) r2 hc1' hnr2 hr c hc1 hc35 hag1

/-- For the channels 1..35, in every state reached from a freshly constructed controller
by public calls other than `reset()`, the cache entry `lc_cache[c]` equals the content
of the device register `0x25 + c` after the bus writes of the sequence, starting from the
power-on register file. -/
theorem cache_agrees_in_array (addr : Nat) (pin : Int) (ops : List Op) (r : IS × List Event)
    (hnr : NoReset ops) (h : run (IS.IS addr pin) ops = some r) (c : Nat)
    (hc1 : 1 ≤ c) (hc35 : c ≤ 35) : CacheAgrees r.1 (devRun devPowerOn r.2) c := by
  refine run_agree ops (IS.IS addr pin) devPowerOn r (cacheOk_construct addr pin) hnr h c
    hc1 hc35 ?_
  unfold CacheAgrees IS.IS devPowerOn
  simp only
  rw [List.getElem?_eq_getElem (by rw [List.length_replicate, led_count_eq]; omega),
    List.getElem_replicate]

/-- C15 (failing input).  After `initialize(true, 1, 0)` on a fresh controller the device
register `0x25 + 36 = 0x49` of channel 36 holds 1, while the entry the controller uses for
channel 36, `lc_cache[36]`, is not an entry of the 36-byte cache (the initialisation
filled `lc_cache[0..35]`): there is no cache entry for channel 36 to agree with the
register.  The same already holds for the freshly constructed controller. -/
theorem cache_entry_channel36_missing :
    run (IS.IS 0x3C psdb_default) [Op.init true 1 0]
        = some (initializeIS (IS.IS 0x3C psdb_default) true 1 0)
    ∧ NoReset [Op.init true 1 0]
    ∧ devRun devPowerOn (initializeIS (IS.IS 0x3C psdb_default) true 1 0).2 (0x25 + 36) = 1
    ∧ (initializeIS (IS.IS 0x3C psdb_default) true 1 0).1.lc_cache[36]? = none
    ∧ ¬ CacheAgrees (initializeIS (IS.IS 0x3C psdb_default) true 1 0).1
          (devRun devPowerOn (initializeIS (IS.IS 0x3C psdb_default) true 1 0).2) 36
    ∧ ¬ CacheAgrees (IS.IS 0x3C psdb_default) devPowerOn 36 := by
  refine ⟨by decide, ?_, by decide, by decide, ?_, ?_⟩
  · unfold NoReset
    simp
  · unfold CacheAgrees
    decide
  · unfold CacheAgrees
    decide

end IS31FL3236
